import Mathlib

/-! # Verification development for `parser.go` (git-encrypt-agent)

A shallow embedding of the incremental RESP-style `Parser` of `parser.go`.

Modelling conventions
* A byte is a `Nat` (its numeric value), a byte slice is a `List Nat`.
  `buf[i:]` is the suffix of the list, `buf[:i]` its prefix.
* Go `int` is `Int`; the width of `int` and of a pointer is observable in
  `strconv.Atoi`, modelled by `atoi` for a 64-bit `int`, and in the length
  check of `make`, modelled by `makeElements` for a 64-bit platform.
* A slice that the code tests against `nil` (`tmpNumber`, `tmpString`) is an
  `Option (List Nat)`, `none` being the nil slice.  The payload `data` of an
  `Element` is never tested against `nil`; it is a `List Nat` and the nil
  slice is the empty list.
* `elements []*Element` is a `List (Option Element)`, `none` being a nil
  pointer.
* A method with receiver `r *Parser` that returns `error` becomes a function
  from the parser to a pair of the returned value (`Ret`) and the parser after
  the call.  `Ret.panic` is a Go run-time panic (index or slice bound out of
  range, nil dereference, `make` with a length that is negative or beyond the
  allocation limit).
* `write` is recursive in the source and some recursive calls pass the whole
  buffer again, so the recursion is driven by a fuel counter (`writeFuel`);
  `write` supplies `2 * len(buf) + 2` units, which is shown to be enough
  (`write_eq`, `write_ne_outOfFuel`).
* `Parse` reads from a `net.Conn`; the connection is a finite list of chunks,
  each delivered by one `Read` with a nil error, followed by `io.EOF`.
* Properties of every reachable parser are proved over `Step`, the relation of
  the single field updates that `write` performs (`write_steps`).
-/

namespace GitEncryptAgent

/-- The constants of `parseProcessingState`, in `iota` order. -/
inductive parseProcessingState where
  | UNINITIALIZED
  | ELEM_COUNT_INITIALIZING
  | ELEM_COUNT_INITIALIZED
  | ELEM_INITIALIZING
  | ELEM_STRING_SIZE_INITIALIZING
  | ELEM_STRING_SIZE_INITIALIZED
  | ELEM_STRING_INITIALIZING
  | ELEM_STRING_INITIALIZED
  | INITIALIZED
  deriving DecidableEq

/-- Modelled from the spec: the type `resultTypeCode` and its constants
`SIMPLE_STRING`, `ERROR_STRING`, `BINARY_STRING` are declared outside
`parser.go`.  The spec names the three element kinds (simple string, error
string, bulk string); `UNSET` stands for the zero value that `NewElement`
leaves in `kind` before the caller assigns one. -/
inductive resultTypeCode where
  | UNSET
  | SIMPLE_STRING
  | ERROR_STRING
  | BINARY_STRING
  deriving DecidableEq

/-- The Go struct `Element`. -/
structure Element where
  kind : resultTypeCode
  size : Int
  data : List Nat
  deriving DecidableEq

/-- `NewElement(size, data)`: `kind` keeps its zero value. -/
def NewElement (size : Int) (data : List Nat) : Element :=
  { kind := resultTypeCode.UNSET, size := size, data := data }

/-- The Go struct `Parser`. -/
structure Parser where
  count : Int
  elements : List (Option Element)
  state : parseProcessingState
  nextState : parseProcessingState
  tmpIndex : Int
  tmpNumber : Option (List Nat)
  tmpString : Option (List Nat)
  tmpCrlfState : Int
  deriving DecidableEq

/-- `NewParser()`: every field has its zero value. -/
def NewParser : Parser :=
  { count := 0, elements := [], state := parseProcessingState.UNINITIALIZED,
    nextState := parseProcessingState.UNINITIALIZED, tmpIndex := 0,
    tmpNumber := none, tmpString := none, tmpCrlfState := 0 }

/-- What a call hands back: the Go `error` value (`nil`, the sentinel
`parseContinue`, or the value built by `protocolError`), a run-time panic, or
exhaustion of the fuel of `writeFuel`. -/
inductive Ret where
  | nil
  | parseContinue
  | protocolError (message : String)
  | panic
  | outOfFuel
  deriving DecidableEq

/-- `r.protocolError(message)`: builds the error value, touches no field. -/
def protocolError (message : String) : Ret := Ret.protocolError message

/-- Whether a returned value is a protocol error. -/
def Ret.isProtocolError : Ret → Bool
  | Ret.protocolError _ => true
  | _ => false

/-! ### `strconv.Atoi` -/

/-- The value of a run of ASCII digits read after `acc`; `none` on a byte that
is not a digit. -/
def parseDigits : Nat → List Nat → Option Nat
  | acc, [] => some acc
  | acc, b :: rest =>
    if 48 ≤ b ∧ b ≤ 57 then parseDigits (acc * 10 + (b - 48)) rest else none

/-- Largest value of a 64-bit Go `int`. -/
def maxInt : Nat := 2 ^ 63 - 1

/-- Model of the standard library function `strconv.Atoi` on a platform with
64-bit `int`: an optional sign, then at least one decimal digit, and the value
must lie in `[-2^63, 2^63 - 1]`; `none` is a returned error. -/
def atoi (s : List Nat) : Option Int :=
  match s with
  | [] => none
  | 45 :: t =>
    match t with
    | [] => none
    | _ :: _ =>
      match parseDigits 0 t with
      | some n => if n ≤ maxInt + 1 then some (-(n : Int)) else none
      | none => none
  | 43 :: t =>
    match t with
    | [] => none
    | _ :: _ =>
      match parseDigits 0 t with
      | some n => if n ≤ maxInt then some (n : Int) else none
      | none => none
  | _ :: _ =>
    match parseDigits 0 s with
    | some n => if n ≤ maxInt then some (n : Int) else none
    | none => none

/-! ### Slice primitives -/

/-- `append(s, bs...)` where `s` may be the nil slice. -/
def appendSlice (s : Option (List Nat)) (bs : List Nat) : List Nat :=
  match s with
  | none => bs
  | some l => l ++ bs

/-- The bytes held by a slice, the nil slice holding none (`string(s)`,
`len(s)`). -/
def sliceBytes (s : Option (List Nat)) : List Nat :=
  match s with
  | none => []
  | some l => l

/-- Largest size in bytes of one allocation, `maxAlloc` of the Go runtime on a
64-bit platform with 48-bit heap addresses (linux/amd64). -/
def maxAlloc : Nat := 2 ^ 48

/-- Size in bytes of one slice element of type `*Element` on a 64-bit
platform. -/
def ptrSize : Nat := 8

/-- `make([]*Element, n, n)`: `n` nil pointers.  The run-time check of
`makeslice` panics (`none`) when `n < 0` or when the `ptrSize * n` bytes asked
for exceed `maxAlloc` (`len out of range`).  A request that passes the check
succeeds: running out of memory is not modelled. -/
def makeElements (n : Int) : Option (List (Option Element)) :=
  if n < 0 ∨ (maxAlloc : Int) < (ptrSize : Int) * n then none
  else some (List.replicate n.toNat none)

/-- The read `elements[i]`: `none` is the index-out-of-range panic. -/
def getElem (es : List (Option Element)) (i : Int) : Option (Option Element) :=
  if i < 0 then none else es.get? i.toNat

/-- The assignment `elements[i] = e`: `none` is the index-out-of-range panic. -/
def setElem (es : List (Option Element)) (i : Int) (e : Element) :
    Option (List (Option Element)) :=
  if i < 0 then none
  else if i.toNat < es.length then some (es.set i.toNat (some e)) else none

/-! ### The scanners -/

/-- `Parser.readInteger`: the loop over `buf`, as a recursion on the suffix
`buf[i:]`.  Returns `(number, newBuf, err)` and the parser. -/
def readInteger (r : Parser) : List Nat → (Int × List Nat × Ret) × Parser
  | [] => ((0, [], Ret.parseContinue), r)
  | b :: rest =>
    if r.tmpNumber = none ∧ b = 45 then
      readInteger { r with tmpNumber := some (appendSlice r.tmpNumber [b]) } rest
    else if 48 ≤ b ∧ b ≤ 57 then
      readInteger { r with tmpNumber := some (appendSlice r.tmpNumber [b]) } rest
    else if b = 13 then
      match atoi (sliceBytes r.tmpNumber) with
      | some number => ((number, b :: rest, Ret.nil), { r with tmpNumber := none })
      | none => ((0, [], protocolError "Invalid charactor in number"), r)
    else ((0, [], protocolError "Invalid charactor in number"), r)

/-- The search loop of `writeSimpleStringSize` / `writeErrorStringSize`: the
first index `i` (counted from `i0`) with `buf[i] == 13`. -/
def findCR : Nat → List Nat → Option Nat
  | _, [] => none
  | i, b :: rest => if b = 13 then some i else findCR (i + 1) rest

/-- The common body of `writeSimpleStringSize` and `writeErrorStringSize`,
which differ only in the kind they assign. -/
def writeStringSize (kind : resultTypeCode) (r : Parser) (buf : List Nat) : Ret × Parser :=
  let r1 : Parser :=
    if r.tmpString = none then { r with tmpString := some [] } else r
  match findCR 0 buf with
  | some i =>
    let r2 : Parser := { r1 with tmpString := some (appendSlice r1.tmpString (buf.take i)) }
    let s := sliceBytes r2.tmpString
    match setElem r2.elements r2.tmpIndex { NewElement (s.length : Int) s with kind := kind } with
    | none => (Ret.panic, r2)
    | some es =>
      (Ret.nil, { r2 with elements := es, tmpString := none, tmpIndex := r2.tmpIndex + 1 })
  | none =>
    (Ret.parseContinue, { r1 with tmpString := some (appendSlice r1.tmpString buf) })

/-- `Parser.writeSimpleStringSize`. -/
def writeSimpleStringSize (r : Parser) (buf : List Nat) : Ret × Parser :=
  writeStringSize resultTypeCode.SIMPLE_STRING r buf

/-- `Parser.writeErrorStringSize`. -/
def writeErrorStringSize (r : Parser) (buf : List Nat) : Ret × Parser :=
  writeStringSize resultTypeCode.ERROR_STRING r buf

/-! ### The mutually recursive part: `write` and the functions that call it

Each function takes the recursive `write` as its first argument. -/

/-- `Parser.writeElementsCount`. -/
def writeElementsCount (write : Parser → List Nat → Ret × Parser)
    (r : Parser) (buf : List Nat) : Ret × Parser :=
  match readInteger r buf with
  | ((count, newBuf, err), r1) =>
    if err ≠ Ret.nil then
      if err = Ret.parseContinue then (Ret.nil, r1) else (err, r1)
    else
      let r2 : Parser :=
        { r1 with count := count, state := parseProcessingState.ELEM_COUNT_INITIALIZED,
                  nextState := parseProcessingState.ELEM_INITIALIZING }
      match makeElements count with
      | none => (Ret.panic, r2)
      | some es => write { r2 with elements := es } newBuf

/-- `Parser.writeBinaryStringSize`. -/
def writeBinaryStringSize (write : Parser → List Nat → Ret × Parser)
    (r : Parser) (buf : List Nat) : Ret × Parser :=
  match readInteger r buf with
  | ((size, newBuf, err), r1) =>
    if err ≠ Ret.nil then
      if err = Ret.parseContinue then (Ret.nil, r1) else (err, r1)
    else
      match setElem r1.elements r1.tmpIndex
          { kind := resultTypeCode.BINARY_STRING, size := size, data := [] } with
      | none => (Ret.panic, r1)
      | some es =>
        let r2 : Parser :=
          { r1 with elements := es, state := parseProcessingState.ELEM_STRING_SIZE_INITIALIZED }
        let r3 : Parser :=
          if size = -1 then { r2 with nextState := parseProcessingState.ELEM_INITIALIZING }
          else { r2 with nextState := parseProcessingState.ELEM_STRING_INITIALIZING }
        write r3 newBuf

/-- `Parser.writeBinaryString`. -/
def writeBinaryString (write : Parser → List Nat → Ret × Parser)
    (r : Parser) (buf : List Nat) : Ret × Parser :=
  let length : Int := buf.length
  match getElem r.elements r.tmpIndex with
  | none => (Ret.panic, r)
  | some none => (Ret.panic, r)
  | some (some element) =>
    let remaining : Int := element.size - (element.data.length : Int)
    if length ≥ remaining then
      if remaining < 0 then (Ret.panic, r)
      else
        let element1 : Element :=
          { element with data := element.data ++ buf.take remaining.toNat }
        let r1 : Parser :=
          { r with elements := r.elements.set r.tmpIndex.toNat (some element1),
                   state := parseProcessingState.ELEM_STRING_INITIALIZED,
                   nextState := parseProcessingState.ELEM_INITIALIZING,
                   tmpIndex := r.tmpIndex + 1 }
        write r1 (buf.drop remaining.toNat)
    else
      let element1 : Element := { element with data := element.data ++ buf }
      (Ret.nil, { r with elements := r.elements.set r.tmpIndex.toNat (some element1) })

/-- `Parser.writeCRLF`: the loop over `buf`, as a recursion on the suffix
`buf[i:]`. -/
def writeCRLF (write : Parser → List Nat → Ret × Parser)
    (r : Parser) : List Nat → Ret × Parser
  | [] => (protocolError "Invalid charactor for new line", r)
  | b :: rest =>
    if b = 13 ∧ r.tmpCrlfState = 0 then
      let r1 : Parser := { r with tmpCrlfState := 1 }
      if rest = [] then (Ret.nil, r1) else writeCRLF write r1 rest
    else if b = 10 ∧ r.tmpCrlfState = 1 then
      write { r with tmpCrlfState := 0, state := r.nextState,
                     nextState := parseProcessingState.UNINITIALIZED } rest
    else (protocolError "Invalid charactor for new line", r)

/-- The body of `Parser.write`, the recursive calls going to `write`. -/
def writeBody (write : Parser → List Nat → Ret × Parser)
    (r : Parser) (buf : List Nat) : Ret × Parser :=
  match buf with
  | [] => (Ret.nil, r)
  | b :: rest =>
    match r.state with
    | parseProcessingState.UNINITIALIZED =>
      if b = 42 then
        write { r with state := parseProcessingState.ELEM_COUNT_INITIALIZING } rest
      else
        write { r with count := 1, state := parseProcessingState.ELEM_INITIALIZING,
                       elements := [none] } (b :: rest)
    | parseProcessingState.ELEM_COUNT_INITIALIZING => writeElementsCount write r (b :: rest)
    | parseProcessingState.ELEM_INITIALIZING =>
      if r.count ≤ r.tmpIndex then (protocolError "Unknown write error", r)
      else if b = 36 then
        write { r with state := parseProcessingState.ELEM_STRING_SIZE_INITIALIZING } rest
      else if b = 43 then writeSimpleStringSize r rest
      else if b = 45 then writeErrorStringSize r rest
      else (protocolError "Unknown write error", r)
    | parseProcessingState.ELEM_STRING_SIZE_INITIALIZING =>
      writeBinaryStringSize write r (b :: rest)
    | parseProcessingState.ELEM_STRING_INITIALIZING => writeBinaryString write r (b :: rest)
    | parseProcessingState.ELEM_COUNT_INITIALIZED => writeCRLF write r (b :: rest)
    | parseProcessingState.ELEM_STRING_SIZE_INITIALIZED => writeCRLF write r (b :: rest)
    | parseProcessingState.ELEM_STRING_INITIALIZED => writeCRLF write r (b :: rest)
    | parseProcessingState.INITIALIZED => (protocolError "Unknown write error", r)

/-- `Parser.write` with a bound on the depth of the recursion. -/
def writeFuel : Nat → Parser → List Nat → Ret × Parser
  | 0, r, _ => (Ret.outOfFuel, r)
  | fuel + 1, r, buf => writeBody (writeFuel fuel) r buf

/-- `Parser.write`. -/
def write (r : Parser) (buf : List Nat) : Ret × Parser :=
  writeFuel (2 * buf.length + 2) r buf

/-- `Parser.eof`. -/
def eof (r : Parser) : Ret × Parser :=
  if r.state ≠ parseProcessingState.ELEM_INITIALIZING then (protocolError "EOF Error", r)
  else (Ret.nil, { r with state := parseProcessingState.INITIALIZED })

/-- The calls `write(c1)`, ..., `write(cn)` on one parser, in order: the value
returned by each call and the parser after the last one. -/
def writeAll (r : Parser) : List (List Nat) → List Ret × Parser
  | [] => ([], r)
  | c :: cs =>
    let x := write r c
    let y := writeAll x.2 cs
    (x.1 :: y.1, y.2)

/-- The bytes of a string literal. -/
def bytes (s : String) : List Nat := s.toList.map Char.toNat

/-! ## Notions used in the proofs -/

/-! ### Fuel, single-byte runs and the shape of the integer consumers -/

/-- States from which `write` may call itself without consuming a byte. -/
def rank : parseProcessingState → Nat
  | parseProcessingState.UNINITIALIZED => 1
  | parseProcessingState.ELEM_COUNT_INITIALIZING => 1
  | parseProcessingState.ELEM_STRING_SIZE_INITIALIZING => 1
  | parseProcessingState.ELEM_STRING_INITIALIZING => 1
  | _ => 0

/-- The byte `b` would start a simple or error string (or could, from the
unstarted state) in the state of `r`. -/
def startsString (r : Parser) (b : Nat) : Prop :=
  (r.state = parseProcessingState.UNINITIALIZED ∨
    r.state = parseProcessingState.ELEM_INITIALIZING) ∧ (b = 43 ∨ b = 45)

instance (r : Parser) (b : Nat) : Decidable (startsString r b) := by
  unfold startsString; infer_instance

/-- The terminator states. -/
def isCRLFState (s : parseProcessingState) : Prop :=
  s = parseProcessingState.ELEM_COUNT_INITIALIZED ∨
  s = parseProcessingState.ELEM_STRING_SIZE_INITIALIZED ∨
  s = parseProcessingState.ELEM_STRING_INITIALIZED

/-- The shared shape of `writeElementsCount` and `writeBinaryStringSize`: run
`readInteger`, turn `parseContinue` into `nil`, pass other errors on, and hand
a parsed number to the continuation `k`. -/
def withInteger (k : Int → List Nat → Parser → Ret × Parser) (r : Parser)
    (buf : List Nat) : Ret × Parser :=
  match readInteger r buf with
  | ((n, newBuf, err), r1) =>
    if err ≠ Ret.nil then
      if err = Ret.parseContinue then (Ret.nil, r1) else (err, r1)
    else k n newBuf r1

/-- The continuation of `writeElementsCount`. -/
def countCont (write : Parser → List Nat → Ret × Parser) (count : Int) (newBuf : List Nat)
    (r1 : Parser) : Ret × Parser :=
  let r2 : Parser :=
    { r1 with count := count, state := parseProcessingState.ELEM_COUNT_INITIALIZED,
              nextState := parseProcessingState.ELEM_INITIALIZING }
  match makeElements count with
  | none => (Ret.panic, r2)
  | some es => write { r2 with elements := es } newBuf

/-- The continuation of `writeBinaryStringSize`. -/
def sizeCont (write : Parser → List Nat → Ret × Parser) (size : Int) (newBuf : List Nat)
    (r1 : Parser) : Ret × Parser :=
  match setElem r1.elements r1.tmpIndex
      { kind := resultTypeCode.BINARY_STRING, size := size, data := [] } with
  | none => (Ret.panic, r1)
  | some es =>
    let r2 : Parser :=
      { r1 with elements := es, state := parseProcessingState.ELEM_STRING_SIZE_INITIALIZED }
    let r3 : Parser :=
      if size = -1 then { r2 with nextState := parseProcessingState.ELEM_INITIALIZING }
      else { r2 with nextState := parseProcessingState.ELEM_STRING_INITIALIZING }
    write r3 newBuf

/-- The byte is taken into the accumulator by `readInteger`. -/
def accepts (r : Parser) (b : Nat) : Prop :=
  (r.tmpNumber = none ∧ b = 45) ∨ (48 ≤ b ∧ b ≤ 57)

instance (r : Parser) (b : Nat) : Decidable (accepts r b) := by
  unfold accepts; infer_instance

/-- The parser after `writeBinaryString` has completed the payload of `e`
with the bytes `bs`. -/
def sealPayload (r : Parser) (e : Element) (bs : List Nat) : Parser :=
  { r with elements := r.elements.set r.tmpIndex.toNat (some { e with data := e.data ++ bs }),
           state := parseProcessingState.ELEM_STRING_INITIALIZED,
           nextState := parseProcessingState.ELEM_INITIALIZING,
           tmpIndex := r.tmpIndex + 1 }

/-- The parser after `writeBinaryString` has appended the whole chunk `bs` to
the payload of `e`. -/
def growPayload (r : Parser) (e : Element) (bs : List Nat) : Parser :=
  { r with elements := r.elements.set r.tmpIndex.toNat (some { e with data := e.data ++ bs }) }

/-- The parser after the bytes of `bs` have been written one at a time. -/
def runEnd (r : Parser) : List Nat → Parser
  | [] => r
  | b :: rest => runEnd (write r [b]).2 rest

/-- Written one byte at a time from `r`, every byte of `bs` is accepted with
`nil` and none of them is dispatched as the start of a simple or error
string. -/
def cleanRun (r : Parser) : List Nat → Prop
  | [] => True
  | b :: rest => ¬ startsString r b ∧ (write r [b]).1 = Ret.nil ∧ cleanRun (write r [b]).2 rest

/-! ### Decimal text and the wire format of an array of bulk strings -/

/-- The digits of `n` pushed in front of `acc`, most significant first. -/
def decFuel : Nat → Nat → List Nat → List Nat
  | 0, _, acc => acc
  | fuel + 1, n, acc =>
    if n < 10 then (48 + n) :: acc else decFuel fuel (n / 10) ((48 + n % 10) :: acc)

/-- The decimal text of a natural number, `dec(n)` in the claims: ASCII
digits, no leading zero except for `0` itself. -/
def dec (n : Nat) : List Nat := decFuel (n + 1) n []

/-- The wire form of one bulk string: `$`, the length, CR LF, the payload,
CR LF. -/
def encodeBulk (p : List Nat) : List Nat :=
  36 :: (dec p.length ++ [13, 10] ++ p ++ [13, 10])

/-- The wire form of several bulk strings in a row. -/
def encodeBulks : List (List Nat) → List Nat
  | [] => []
  | p :: ps => encodeBulk p ++ encodeBulks ps

/-- The wire form of an array of bulk strings: `*`, the count, CR LF, the
elements. -/
def encodeArray (ps : List (List Nat)) : List Nat :=
  42 :: (dec ps.length ++ [13, 10] ++ encodeBulks ps)

/-- The element a bulk string with payload `p` decodes to. -/
def bulkElement (p : List Nat) : Element :=
  { kind := resultTypeCode.BINARY_STRING, size := (p.length : Int), data := p }

/-! ### Clean runs over the tokens of a message -/

/-- A clean run over `bs` that takes `r` to `r1`. -/
def Run (r : Parser) (bs : List Nat) (r1 : Parser) : Prop :=
  cleanRun r bs ∧ runEnd r bs = r1

/-- The two states in which `readInteger` runs. -/
def isIntegerState (s : parseProcessingState) : Prop :=
  s = parseProcessingState.ELEM_COUNT_INITIALIZING ∨
  s = parseProcessingState.ELEM_STRING_SIZE_INITIALIZING

/-- The parser an array of the bulk strings `ps` decodes to, before `eof`. -/
def decodedArray (ps : List (List Nat)) : Parser :=
  { count := (ps.length : Int), elements := ps.map (fun p => some (bulkElement p)),
    state := parseProcessingState.ELEM_INITIALIZING,
    nextState := parseProcessingState.UNINITIALIZED,
    tmpIndex := (ps.length : Int), tmpNumber := none, tmpString := none, tmpCrlfState := 0 }

/-- The parser in which an inline message (no `*` header) is dispatched. -/
def inlineStart : Parser :=
  { NewParser with count := 1, state := parseProcessingState.ELEM_INITIALIZING,
                   elements := [none] }

/-! ### Malformed count header -/

/-- The bytes `h` are a run that `readInteger` accumulates from an empty
accumulator: each byte a digit, or a `-` in first position. -/
def countHeader (h : List Nat) : Prop :=
  match h with
  | [] => True
  | b :: t => (b = 45 ∨ (48 ≤ b ∧ b ≤ 57)) ∧ ∀ d ∈ t, 48 ≤ d ∧ d ≤ 57

instance (h : List Nat) : Decidable (countHeader h) := by
  unfold countHeader
  split <;> infer_instance

/-- The byte `x`, met after the run `h`, is neither a digit, nor CR, nor a `-`
in first position. -/
def offending (h : List Nat) (x : Nat) : Prop :=
  ¬ (48 ≤ x ∧ x ≤ 57) ∧ x ≠ 13 ∧ ¬ (x = 45 ∧ h = [])

instance (h : List Nat) (x : Nat) : Decidable (offending h x) := by
  unfold offending; infer_instance

/-! ### End of stream, the terminator matcher and `Parse` -/

/-- `Parser.Parse` on a connection whose calls to `Read` deliver the chunks
`reads` in order, each with a nil error, and then return `io.EOF`: a `write`
that returns an error (or panics) ends the loop with that value; at `io.EOF`
the value returned by `r.eof()` is discarded and `Parse` returns `nil`. -/
def Parse (r : Parser) : List (List Nat) → Ret × Parser
  | [] => (Ret.nil, (eof r).2)
  | c :: cs =>
    let x := write r c
    if x.1 ≠ Ret.nil then x else Parse x.2 cs

/-- The chunk `buf`, met by the terminator matcher when `tmpCrlfState = crlf`,
holds a byte that is not the expected one: not CR while awaiting CR, or not LF
while awaiting LF (the CR having arrived in an earlier chunk, `crlf = 1`, or
just before in this chunk). -/
def unexpectedByte (crlf : Int) : List Nat → Prop
  | [] => False
  | [b] => (crlf = 0 ∧ b ≠ 13) ∨ (crlf = 1 ∧ b ≠ 10)
  | b :: c :: _ => (crlf = 0 ∧ (b ≠ 13 ∨ c ≠ 10)) ∨ (crlf = 1 ∧ b ≠ 10)

instance (crlf : Int) (buf : List Nat) : Decidable (unexpectedByte crlf buf) := by
  unfold unexpectedByte
  split <;> infer_instance

/-- The parser with which decoding continues once CR LF has been matched. -/
def afterCRLF (r : Parser) : Parser :=
  { r with tmpCrlfState := 0, state := r.nextState,
           nextState := parseProcessingState.UNINITIALIZED }

instance (s : parseProcessingState) : Decidable (isCRLFState s) := by
  unfold isCRLFState; infer_instance

instance (s : parseProcessingState) : Decidable (isIntegerState s) := by
  unfold isIntegerState; infer_instance

/-! ### Decimal texts of integers -/

/-- Every byte of `ds` is an ASCII digit. -/
def allDigits (ds : List Nat) : Prop := ∀ d ∈ ds, 48 ≤ d ∧ d ≤ 57

instance (ds : List Nat) : Decidable (allDigits ds) := by
  unfold allDigits; infer_instance

/-- The number a run of ASCII digits denotes, most significant digit first:
each digit times the power of ten of its position. -/
def digitsValue : List Nat → Nat
  | [] => 0
  | d :: ds => (d - 48) * 10 ^ ds.length + digitsValue ds

/-- The integer a decimal text denotes: an optional leading `-` followed by at
least one digit; `none` when the bytes are not of that form. -/
def decimalValue (d : List Nat) : Option Int :=
  match d with
  | [] => none
  | b :: ds =>
    if b = 45 then
      if ds ≠ [] ∧ allDigits ds then some (-(digitsValue ds : Int)) else none
    else if allDigits (b :: ds) then some (digitsValue (b :: ds) : Int) else none

/-- The integer fits in a 64-bit Go `int`. -/
def inIntRange (n : Int) : Prop := -(2 ^ 63 : Int) ≤ n ∧ n ≤ 2 ^ 63 - 1

instance (n : Int) : Decidable (inIntRange n) := by
  unfold inIntRange; infer_instance

/-! ### The primitive updates of the parser and the invariants -/

/-- One update of the parser made by `write` or a function it calls, with the
condition under which the code makes it. -/
inductive Step : Parser → Parser → Prop
  | star (r : Parser) (hs : r.state = parseProcessingState.UNINITIALIZED) :
    Step r { r with state := parseProcessingState.ELEM_COUNT_INITIALIZING }
  | implicitCount (r : Parser) (hs : r.state = parseProcessingState.UNINITIALIZED) :
    Step r { r with count := 1, state := parseProcessingState.ELEM_INITIALIZING,
                    elements := [none] }
  | accumulate (r : Parser) (b : Nat) (hs : isIntegerState r.state) :
    Step r { r with tmpNumber := some (appendSlice r.tmpNumber [b]) }
  | countKnown (r : Parser) (n : Int) (es : List (Option Element))
      (hs : r.state = parseProcessingState.ELEM_COUNT_INITIALIZING)
      (hm : makeElements n = some es) :
    Step r { r with tmpNumber := none, count := n,
                    state := parseProcessingState.ELEM_COUNT_INITIALIZED,
                    nextState := parseProcessingState.ELEM_INITIALIZING, elements := es }
  | countPanic (r : Parser) (n : Int)
      (hs : r.state = parseProcessingState.ELEM_COUNT_INITIALIZING)
      (hm : makeElements n = none) :
    Step r { r with tmpNumber := none, count := n,
                    state := parseProcessingState.ELEM_COUNT_INITIALIZED,
                    nextState := parseProcessingState.ELEM_INITIALIZING }
  | dollar (r : Parser) (hs : r.state = parseProcessingState.ELEM_INITIALIZING)
      (hi : r.tmpIndex < r.count) :
    Step r { r with state := parseProcessingState.ELEM_STRING_SIZE_INITIALIZING }
  | stringBuffer (r : Parser) (t : Option (List Nat))
      (hs : r.state = parseProcessingState.ELEM_INITIALIZING) :
    Step r { r with tmpString := t }
  | stringSealed (r : Parser) (kind : resultTypeCode) (s : List Nat)
      (es : List (Option Element))
      (hs : r.state = parseProcessingState.ELEM_INITIALIZING)
      (hk : kind ≠ resultTypeCode.BINARY_STRING)
      (hset : setElem r.elements r.tmpIndex
        { kind := kind, size := (s.length : Int), data := s } = some es) :
    Step r { r with elements := es, tmpString := none, tmpIndex := r.tmpIndex + 1 }
  | sizePanic (r : Parser)
      (hs : r.state = parseProcessingState.ELEM_STRING_SIZE_INITIALIZING) :
    Step r { r with tmpNumber := none }
  | sizeKnown (r : Parser) (size : Int) (es : List (Option Element))
      (hs : r.state = parseProcessingState.ELEM_STRING_SIZE_INITIALIZING)
      (hset : setElem r.elements r.tmpIndex
        { kind := resultTypeCode.BINARY_STRING, size := size, data := [] } = some es) :
    Step r { r with tmpNumber := none, elements := es,
                    state := parseProcessingState.ELEM_STRING_SIZE_INITIALIZED,
                    nextState := if size = -1 then parseProcessingState.ELEM_INITIALIZING
                                 else parseProcessingState.ELEM_STRING_INITIALIZING }
  | payloadSealed (r : Parser) (e : Element) (bs : List Nat)
      (hs : r.state = parseProcessingState.ELEM_STRING_INITIALIZING)
      (hg : getElem r.elements r.tmpIndex = some (some e))
      (hlen : (e.data.length : Int) + (bs.length : Int) = e.size) :
    Step r (sealPayload r e bs)
  | payloadGrown (r : Parser) (e : Element) (bs : List Nat)
      (hs : r.state = parseProcessingState.ELEM_STRING_INITIALIZING)
      (hg : getElem r.elements r.tmpIndex = some (some e))
      (hlen : (e.data.length : Int) + (bs.length : Int) < e.size) :
    Step r (growPayload r e bs)
  | cr (r : Parser) (hs : isCRLFState r.state) : Step r { r with tmpCrlfState := 1 }
  | lf (r : Parser) (hs : isCRLFState r.state) : Step r (afterCRLF r)

/-- A finite sequence of updates. -/
def Steps (r r1 : Parser) : Prop := Relation.ReflTransGen Step r r1

/-- The count is known: the state is neither `UNINITIALIZED` nor
`ELEM_COUNT_INITIALIZING`. -/
def countKnownState (s : parseProcessingState) : Prop :=
  s ≠ parseProcessingState.UNINITIALIZED ∧ s ≠ parseProcessingState.ELEM_COUNT_INITIALIZING

instance (s : parseProcessingState) : Decidable (countKnownState s) := by
  unfold countKnownState; infer_instance

/-- The bound on bulk payloads: a stored `BINARY_STRING` element with
`size >= 0` has `len(data) <= size`. -/
def payloadBound (r : Parser) : Prop :=
  ∀ e : Element, some e ∈ r.elements → e.kind = resultTypeCode.BINARY_STRING →
    0 ≤ e.size → (e.data.length : Int) ≤ e.size

/-- The slots: `len(elements) == count`, `0 <= tmpIndex <= count`, and every
slot below `tmpIndex` holds an element. -/
def slotsFilled (r : Parser) : Prop :=
  (r.elements.length : Int) = r.count ∧ 0 ≤ r.tmpIndex ∧ r.tmpIndex ≤ r.count ∧
  ∀ i : Nat, (i : Int) < r.tmpIndex → ∃ e : Element, r.elements.get? i = some (some e)

/-- The count is one that `make` allocates: non-negative and within the
allocation limit. -/
def allocatable (n : Int) : Prop := 0 ≤ n ∧ (ptrSize : Int) * n ≤ (maxAlloc : Int)

instance (n : Int) : Decidable (allocatable n) := by
  unfold allocatable; infer_instance

/-- The invariant behind the slots: `write` never sets `INITIALIZED`; a
terminator state resumes in `ELEM_INITIALIZING` or `ELEM_STRING_INITIALIZING`;
`tmpIndex` is 0 until the count is known; once the count is known and is one
that `make` allocates, the slots are as `slotsFilled` says. -/
def slotInvariant (r : Parser) : Prop :=
  r.state ≠ parseProcessingState.INITIALIZED ∧
  (isCRLFState r.state →
    r.nextState = parseProcessingState.ELEM_INITIALIZING ∨
    r.nextState = parseProcessingState.ELEM_STRING_INITIALIZING) ∧
  (¬ countKnownState r.state → r.tmpIndex = 0) ∧
  (countKnownState r.state → allocatable r.count → slotsFilled r)

/-! ### Where a rejected `write` leaves the parser -/

/-- What a protocol error returned by `write` tells about the parser it leaves:
`Unknown write error` is returned in state `ELEM_INITIALIZING` or
`INITIALIZED`, the error of `readInteger` in one of the two states that scan
an integer, the error of `writeCRLF` in a terminator state. -/
def stoppedAt (x : Ret × Parser) : Prop :=
  ∀ msg : String, x.1 = Ret.protocolError msg →
    (msg = "Unknown write error" ∧
      (x.2.state = parseProcessingState.ELEM_INITIALIZING ∨
        x.2.state = parseProcessingState.INITIALIZED)) ∨
    (msg = "Invalid charactor in number" ∧ isIntegerState x.2.state) ∨
    (msg = "Invalid charactor for new line" ∧ isCRLFState x.2.state)

/-- The field `tmpCrlfState` holds 0 (CR awaited) or 1 (LF awaited). -/
def crlfBit (r : Parser) : Prop := r.tmpCrlfState = 0 ∨ r.tmpCrlfState = 1

instance (r : Parser) : Decidable (crlfBit r) := by
  unfold crlfBit; infer_instance

/-! # Theorems -/

/-! ## The fuel of `write` is enough -/

theorem readInteger_length (r : Parser) (buf : List Nat) :
    (readInteger r buf).1.2.1.length ≤ buf.length := by
  induction buf generalizing r with
  | nil => simp [readInteger]
  | cons b rest ih =>
    unfold readInteger
    split_ifs
    · exact Nat.le_succ_of_le (ih _)
    · exact Nat.le_succ_of_le (ih _)
    · split <;> simp
    · simp

theorem readInteger_ne_outOfFuel (r : Parser) (buf : List Nat) :
    (readInteger r buf).1.2.2 ≠ Ret.outOfFuel := by
  induction buf generalizing r with
  | nil => simp [readInteger]
  | cons b rest ih =>
    unfold readInteger
    split_ifs
    · exact ih _
    · exact ih _
    · split <;> simp [protocolError]
    · simp [protocolError]

theorem writeCRLF_congr (w1 w2 : Parser → List Nat → Ret × Parser) (r : Parser)
    (buf : List Nat)
    (h : ∀ r1 buf1, buf1.length < buf.length → w1 r1 buf1 = w2 r1 buf1) :
    writeCRLF w1 r buf = writeCRLF w2 r buf := by
  induction buf generalizing r with
  | nil => simp [writeCRLF]
  | cons b rest ih =>
    unfold writeCRLF
    split_ifs
    · rfl
    · exact ih _ (fun r1 buf1 h1 => h r1 buf1 (by simp at h1 ⊢; omega))
    · exact h _ _ (by simp)
    · rfl

theorem writeBody_congr (w1 w2 : Parser → List Nat → Ret × Parser) (r : Parser)
    (buf : List Nat)
    (h : ∀ r1 buf1, 2 * buf1.length + rank r1.state < 2 * buf.length + rank r.state →
      w1 r1 buf1 = w2 r1 buf1) :
    writeBody w1 r buf = writeBody w2 r buf := by
  cases buf with
  | nil => simp [writeBody]
  | cons b rest =>
    unfold writeBody
    simp only
    split
    · rename_i hs
      split_ifs
      · exact h _ _ (by simp [rank, hs])
      · exact h _ _ (by simp [rank, hs])
    · rename_i hs
      unfold writeElementsCount
      have hl := readInteger_length r (b :: rest)
      split
      rename_i count newBuf err r1 hr
      rw [hr] at hl
      split_ifs
      · rfl
      · rfl
      · simp only
        split
        · rfl
        · exact h _ _ (by simp [rank, hs] at hl ⊢; omega)
    · split_ifs
      · rfl
      · exact h _ _ (by simp [rank]; omega)
      · rfl
      · rfl
      · rfl
    · rename_i hs
      unfold writeBinaryStringSize
      have hl := readInteger_length r (b :: rest)
      split
      rename_i size newBuf err r1 hr
      rw [hr] at hl
      by_cases he : err ≠ Ret.nil
      · rw [if_pos he, if_pos he]
      · rw [if_neg he, if_neg he]
        split
        · rfl
        · simp only
          split_ifs <;> exact h _ _ (by simp [rank, hs] at hl ⊢; omega)
    · rename_i hs
      unfold writeBinaryString
      simp only
      split
      · rfl
      · rfl
      · rename_i element _
        split_ifs
        · rfl
        · refine h _ _ ?_
          have hd : (List.drop (element.size - (element.data.length : Int)).toNat
              (b :: rest)).length ≤ (b :: rest).length := by
            rw [List.length_drop]; omega
          have hr0 : rank r.state = 1 := by rw [hs]; rfl
          rw [hr0]
          simp only [rank]
          omega
        · rfl
    · rename_i hs
      exact writeCRLF_congr _ _ _ _ (fun r1 buf1 h1 => h r1 buf1 (by
        have h2 : rank r1.state ≤ 1 := by cases r1.state <;> simp [rank]
        omega))
    · rename_i hs
      exact writeCRLF_congr _ _ _ _ (fun r1 buf1 h1 => h r1 buf1 (by
        have h2 : rank r1.state ≤ 1 := by cases r1.state <;> simp [rank]
        omega))
    · rename_i hs
      exact writeCRLF_congr _ _ _ _ (fun r1 buf1 h1 => h r1 buf1 (by
        have h2 : rank r1.state ≤ 1 := by cases r1.state <;> simp [rank]
        omega))
    · rfl

theorem writeFuel_eq (n m : Nat) (r : Parser) (buf : List Nat)
    (hn : 2 * buf.length + rank r.state < n) (hm : 2 * buf.length + rank r.state < m) :
    writeFuel n r buf = writeFuel m r buf := by
  induction n generalizing m r buf with
  | zero => omega
  | succ n ih =>
    cases m with
    | zero => omega
    | succ m =>
      unfold writeFuel
      exact writeBody_congr _ _ _ _ (fun r1 buf1 h1 => ih m r1 buf1 (by omega) (by omega))

/-- The unfolding equation of `write`: with the fuel it supplies, `write` is
the body of the source function with the recursive calls going to `write`. -/
theorem write_eq (r : Parser) (buf : List Nat) : write r buf = writeBody write r buf := by
  unfold write
  rw [show 2 * buf.length + 2 = (2 * buf.length + 1) + 1 from rfl]
  conv_lhs => unfold writeFuel
  apply writeBody_congr
  intro r1 buf1 h1
  have hr : rank r.state ≤ 1 := by cases r.state <;> simp [rank]
  have hr1 : rank r1.state ≤ 1 := by cases r1.state <;> simp [rank]
  exact writeFuel_eq _ _ _ _ (by omega) (by omega)

theorem writeCRLF_cases (w : Parser → List Nat → Ret × Parser) (r : Parser)
    (buf : List Nat) :
    (∃ r1 buf1, buf1.length < buf.length ∧ writeCRLF w r buf = w r1 buf1) ∨
      (writeCRLF w r buf).1 ≠ Ret.outOfFuel := by
  induction buf generalizing r with
  | nil => right; simp [writeCRLF, protocolError]
  | cons b rest ih =>
    unfold writeCRLF
    split_ifs
    · right; simp
    · rcases ih { r with tmpCrlfState := 1 } with ⟨r1, buf1, h1, h2⟩ | h
      · exact Or.inl ⟨r1, buf1, by simp; omega, h2⟩
      · exact Or.inr h
    · exact Or.inl ⟨_, _, by simp, rfl⟩
    · right; simp [protocolError]

theorem writeBody_cases (w : Parser → List Nat → Ret × Parser) (r : Parser)
    (buf : List Nat) :
    (∃ r1 buf1, 2 * buf1.length + rank r1.state < 2 * buf.length + rank r.state ∧
        writeBody w r buf = w r1 buf1) ∨
      (writeBody w r buf).1 ≠ Ret.outOfFuel := by
  have hcrlf : ∀ b rest, rank r.state = 0 →
      (∃ r1 buf1, 2 * buf1.length + rank r1.state < 2 * (b :: rest).length + rank r.state ∧
          writeCRLF w r (b :: rest) = w r1 buf1) ∨
        (writeCRLF w r (b :: rest)).1 ≠ Ret.outOfFuel := by
    intro b rest h0
    rcases writeCRLF_cases w r (b :: rest) with ⟨r1, buf1, h1, h2⟩ | h
    · have h3 : rank r1.state ≤ 1 := by cases r1.state <;> simp [rank]
      exact Or.inl ⟨r1, buf1, by omega, h2⟩
    · exact Or.inr h
  cases buf with
  | nil => right; simp [writeBody]
  | cons b rest =>
    unfold writeBody
    simp only
    split
    · rename_i hs
      split_ifs
      · exact Or.inl ⟨_, _, by simp [rank, hs], rfl⟩
      · exact Or.inl ⟨_, _, by simp [rank, hs], rfl⟩
    · rename_i hs
      unfold writeElementsCount
      have hl := readInteger_length r (b :: rest)
      split
      rename_i count newBuf err r1 hr
      rw [hr] at hl
      by_cases he : err ≠ Ret.nil
      · rw [if_pos he]
        right
        split_ifs with h2
        · simp
        · intro h3
          simp only at h3
          have hne := readInteger_ne_outOfFuel r (b :: rest)
          rw [hr] at hne
          exact hne h3
      · rw [if_neg he]
        simp only
        split
        · right; simp
        · exact Or.inl ⟨_, _, by simp [rank, hs] at hl ⊢; omega, rfl⟩
    · split_ifs
      · right; simp [protocolError]
      · exact Or.inl ⟨_, _, by simp [rank]; omega, rfl⟩
      · right
        simp only [writeSimpleStringSize, writeStringSize]
        split <;> [split; skip] <;> simp
      · right
        simp only [writeErrorStringSize, writeStringSize]
        split <;> [split; skip] <;> simp
      · right; simp [protocolError]
    · rename_i hs
      unfold writeBinaryStringSize
      have hl := readInteger_length r (b :: rest)
      split
      rename_i size newBuf err r1 hr
      rw [hr] at hl
      by_cases he : err ≠ Ret.nil
      · rw [if_pos he]
        right
        split_ifs with h2
        · simp
        · intro h3
          simp only at h3
          have hne := readInteger_ne_outOfFuel r (b :: rest)
          rw [hr] at hne
          exact hne h3
      · rw [if_neg he]
        split
        · right; simp
        · simp only
          split_ifs <;> exact Or.inl ⟨_, _, by simp [rank, hs] at hl ⊢; omega, rfl⟩
    · rename_i hs
      unfold writeBinaryString
      simp only
      split
      · right; simp
      · right; simp
      · rename_i element _
        split_ifs
        · right; simp
        · refine Or.inl ⟨_, _, ?_, rfl⟩
          have hd : (List.drop (element.size - (element.data.length : Int)).toNat
              (b :: rest)).length ≤ (b :: rest).length := by
            rw [List.length_drop]; omega
          have hr0 : rank r.state = 1 := by rw [hs]; rfl
          rw [hr0]
          simp only [rank]
          omega
        · right; simp
    · rename_i hs
      exact hcrlf b rest (by rw [hs]; rfl)
    · rename_i hs
      exact hcrlf b rest (by rw [hs]; rfl)
    · rename_i hs
      exact hcrlf b rest (by rw [hs]; rfl)
    · right; simp [protocolError]

/-- `write` is total: the fuel it supplies never runs out, so every call
returns `nil`, `parseContinue` or a protocol error, or panics. -/
theorem write_ne_outOfFuel (r : Parser) (buf : List Nat) :
    (write r buf).1 ≠ Ret.outOfFuel := by
  have key : ∀ n (r : Parser) (buf : List Nat), 2 * buf.length + rank r.state < n →
      (write r buf).1 ≠ Ret.outOfFuel := by
    intro n
    induction n with
    | zero => intro r buf h; omega
    | succ n ih =>
      intro r buf h
      rw [write_eq]
      rcases writeBody_cases write r buf with ⟨r1, buf1, h1, h2⟩ | h3
      · rw [h2]
        exact ih r1 buf1 (by omega)
      · exact h3
  exact key _ r buf (Nat.lt_succ_self _)

/-! ## Feeding a chunk one byte at a time -/

theorem write_nil (r : Parser) : write r [] = (Ret.nil, r) := by
  rw [write_eq]; rfl

theorem write_crlf_state (r : Parser) (b : Nat) (rest : List Nat)
    (hs : isCRLFState r.state) :
    write r (b :: rest) = writeCRLF write r (b :: rest) := by
  rw [write_eq]
  rcases hs with hs | hs | hs <;> simp [writeBody, hs]

theorem peel_crlf (r : Parser) (b : Nat) (rest : List Nat) (hs : isCRLFState r.state) :
    write r (b :: rest) =
      if (write r [b]).1 = Ret.nil then write (write r [b]).2 rest else write r [b] := by
  rw [write_crlf_state r b rest hs, write_crlf_state r b [] hs]
  unfold writeCRLF
  by_cases h1 : b = 13 ∧ r.tmpCrlfState = 0
  · simp only [h1, and_self, if_true]
    cases rest with
    | nil => simp [write_nil]
    | cons c rest1 =>
      simp only [reduceCtorEq, if_false]
      exact (write_crlf_state { r with tmpCrlfState := 1 } c rest1 hs).symm
  · simp only [h1, if_false]
    by_cases h2 : b = 10 ∧ r.tmpCrlfState = 1
    · simp [h2, write_nil]
    · simp [h2, protocolError]

theorem write_count_state (r : Parser) (b : Nat) (rest : List Nat)
    (hs : r.state = parseProcessingState.ELEM_COUNT_INITIALIZING) :
    write r (b :: rest) = writeElementsCount write r (b :: rest) := by
  rw [write_eq]; simp [writeBody, hs]

theorem write_size_state (r : Parser) (b : Nat) (rest : List Nat)
    (hs : r.state = parseProcessingState.ELEM_STRING_SIZE_INITIALIZING) :
    write r (b :: rest) = writeBinaryStringSize write r (b :: rest) := by
  rw [write_eq]; simp [writeBody, hs]

theorem write_payload_state (r : Parser) (b : Nat) (rest : List Nat)
    (hs : r.state = parseProcessingState.ELEM_STRING_INITIALIZING) :
    write r (b :: rest) = writeBinaryString write r (b :: rest) := by
  rw [write_eq]; simp [writeBody, hs]

theorem writeElementsCount_eq (w : Parser → List Nat → Ret × Parser) (r : Parser)
    (buf : List Nat) : writeElementsCount w r buf = withInteger (countCont w) r buf := rfl

theorem writeBinaryStringSize_eq (w : Parser → List Nat → Ret × Parser) (r : Parser)
    (buf : List Nat) : writeBinaryStringSize w r buf = withInteger (sizeCont w) r buf := rfl

theorem readInteger_acc (r : Parser) (b : Nat) (rest : List Nat) (h : accepts r b) :
    readInteger r (b :: rest) =
      readInteger { r with tmpNumber := some (appendSlice r.tmpNumber [b]) } rest := by
  conv_lhs => unfold readInteger
  rcases h with h | h
  · rw [if_pos h]
  · by_cases h1 : r.tmpNumber = none ∧ b = 45
    · rw [if_pos h1]
    · rw [if_neg h1, if_pos h]

theorem readInteger_stop (r : Parser) (b : Nat) (rest : List Nat) (h : ¬ accepts r b) :
    readInteger r (b :: rest) =
      if b = 13 then
        match atoi (sliceBytes r.tmpNumber) with
        | some number => ((number, b :: rest, Ret.nil), { r with tmpNumber := none })
        | none => ((0, [], protocolError "Invalid charactor in number"), r)
      else ((0, [], protocolError "Invalid charactor in number"), r) := by
  conv_lhs => unfold readInteger
  unfold accepts at h
  push_neg at h
  rw [if_neg (fun h1 => h.1 h1.1 h1.2), if_neg (fun h1 => absurd h1.2 (by have := h.2 h1.1; omega))]

theorem withInteger_nil (k : Int → List Nat → Parser → Ret × Parser) (r : Parser) :
    withInteger k r [] = (Ret.nil, r) := by
  simp [withInteger, readInteger]

theorem withInteger_acc (k : Int → List Nat → Parser → Ret × Parser) (r : Parser) (b : Nat)
    (rest : List Nat) (h : accepts r b) :
    withInteger k r (b :: rest) =
      withInteger k { r with tmpNumber := some (appendSlice r.tmpNumber [b]) } rest := by
  unfold withInteger
  rw [readInteger_acc r b rest h]

theorem withInteger_stop (k : Int → List Nat → Parser → Ret × Parser) (r : Parser) (b : Nat)
    (rest : List Nat) (h : ¬ accepts r b) :
    withInteger k r (b :: rest) =
      if b = 13 then
        match atoi (sliceBytes r.tmpNumber) with
        | some number => k number (b :: rest) { r with tmpNumber := none }
        | none => (protocolError "Invalid charactor in number", r)
      else (protocolError "Invalid charactor in number", r) := by
  unfold withInteger
  rw [readInteger_stop r b rest h]
  by_cases h3 : b = 13
  · simp only [h3, if_true]
    cases atoi (sliceBytes r.tmpNumber) <;> simp [protocolError]
  · simp [h3, protocolError]

theorem peel_count (r : Parser) (b : Nat) (rest : List Nat)
    (hs : r.state = parseProcessingState.ELEM_COUNT_INITIALIZING) :
    write r (b :: rest) =
      if (write r [b]).1 = Ret.nil then write (write r [b]).2 rest else write r [b] := by
  rw [write_count_state r b rest hs, write_count_state r b [] hs]
  simp only [writeElementsCount_eq]
  by_cases h : accepts r b
  · rw [withInteger_acc _ r b rest h, withInteger_acc _ r b [] h, withInteger_nil]
    simp only [if_true]
    cases rest with
    | nil => rw [withInteger_nil, write_nil]
    | cons c rest1 =>
      exact (write_count_state { r with tmpNumber := some (appendSlice r.tmpNumber [b]) }
        c rest1 hs).symm
  · rw [withInteger_stop _ r b rest h, withInteger_stop _ r b [] h]
    by_cases h3 : b = 13
    · simp only [h3, if_true]
      cases atoi (sliceBytes r.tmpNumber) with
      | none => simp [protocolError]
      | some n =>
        simp only [countCont]
        cases makeElements n with
        | none => simp
        | some es =>
          simp only
          exact peel_crlf _ 13 rest (Or.inl rfl)
    · simp [h3, protocolError]

theorem peel_size (r : Parser) (b : Nat) (rest : List Nat)
    (hs : r.state = parseProcessingState.ELEM_STRING_SIZE_INITIALIZING) :
    write r (b :: rest) =
      if (write r [b]).1 = Ret.nil then write (write r [b]).2 rest else write r [b] := by
  rw [write_size_state r b rest hs, write_size_state r b [] hs]
  simp only [writeBinaryStringSize_eq]
  by_cases h : accepts r b
  · rw [withInteger_acc _ r b rest h, withInteger_acc _ r b [] h, withInteger_nil]
    simp only [if_true]
    cases rest with
    | nil => rw [withInteger_nil, write_nil]
    | cons c rest1 =>
      exact (write_size_state { r with tmpNumber := some (appendSlice r.tmpNumber [b]) }
        c rest1 hs).symm
  · rw [withInteger_stop _ r b rest h, withInteger_stop _ r b [] h]
    by_cases h3 : b = 13
    · simp only [h3, if_true]
      cases atoi (sliceBytes r.tmpNumber) with
      | none => simp [protocolError]
      | some n =>
        simp only [sizeCont]
        cases setElem r.elements r.tmpIndex
            { kind := resultTypeCode.BINARY_STRING, size := n, data := [] } with
        | none => simp
        | some es =>
          simp only
          by_cases hn : n = -1
          · simp only [hn, if_true]
            exact peel_crlf _ 13 rest (Or.inr (Or.inl rfl))
          · simp only [hn, if_false]
            exact peel_crlf _ 13 rest (Or.inr (Or.inl rfl))
    · simp [h3, protocolError]

theorem writeBinaryString_eq (w : Parser → List Nat → Ret × Parser) (r : Parser)
    (buf : List Nat) (e : Element) (hg : getElem r.elements r.tmpIndex = some (some e)) :
    writeBinaryString w r buf =
      if (buf.length : Int) ≥ e.size - (e.data.length : Int) then
        if e.size - (e.data.length : Int) < 0 then (Ret.panic, r)
        else w (sealPayload r e (buf.take (e.size - (e.data.length : Int)).toNat))
          (buf.drop (e.size - (e.data.length : Int)).toNat)
      else (Ret.nil, growPayload r e buf) := by
  unfold writeBinaryString
  simp only [hg]
  rfl

theorem getElem_some (es : List (Option Element)) (i : Int) (x : Option Element)
    (h : getElem es i = some x) : 0 ≤ i ∧ i.toNat < es.length := by
  unfold getElem at h
  by_cases hi : i < 0
  · simp [hi] at h
  · simp only [hi, if_false] at h
    refine ⟨by omega, ?_⟩
    by_contra hlen
    rw [List.get?_eq_none.mpr (by omega)] at h
    exact absurd h (by simp)

theorem getElem_set (es : List (Option Element)) (i : Int) (v : Option Element)
    (h0 : 0 ≤ i) (h1 : i.toNat < es.length) :
    getElem (es.set i.toNat v) i = some v := by
  unfold getElem
  rw [if_neg (by omega)]
  simp [List.getElem?_set, h1]

theorem peel_payload (r : Parser) (b : Nat) (rest : List Nat)
    (hs : r.state = parseProcessingState.ELEM_STRING_INITIALIZING) :
    write r (b :: rest) =
      if (write r [b]).1 = Ret.nil then write (write r [b]).2 rest else write r [b] := by
  rw [write_payload_state r b rest hs, write_payload_state r b [] hs]
  cases hg : getElem r.elements r.tmpIndex with
  | none => simp [writeBinaryString, hg]
  | some oe =>
    cases oe with
    | none => simp [writeBinaryString, hg]
    | some e =>
      obtain ⟨hi0, hi1⟩ := getElem_some _ _ _ hg
      rw [writeBinaryString_eq _ r (b :: rest) e hg, writeBinaryString_eq _ r [b] e hg]
      generalize hrem : e.size - (e.data.length : Int) = rem
      by_cases hneg : rem < 0
      · have h1 : ((b :: rest).length : Int) ≥ rem := by simp; omega
        have h2 : (([b] : List Nat).length : Int) ≥ rem := by simp; omega
        rw [if_pos h1, if_pos h2]
        simp [if_pos hneg]
      · by_cases hz : rem = 0
        · subst hz
          simp only [Int.toNat_zero, List.take_zero, List.drop_zero, lt_self_iff_false,
            if_false]
          have h1 : ((b :: rest).length : Int) ≥ 0 := by simp; omega
          have h2 : (([b] : List Nat).length : Int) ≥ 0 := by simp
          rw [if_pos h1, if_pos h2]
          exact peel_crlf _ b rest (Or.inr (Or.inr rfl))
        · by_cases ho : rem = 1
          · subst ho
            have h1 : ((b :: rest).length : Int) ≥ 1 := by simp
            have h2 : (([b] : List Nat).length : Int) ≥ 1 := by simp
            rw [if_pos h1, if_pos h2]
            simp [write_nil]
          · have h2 : ¬ (([b] : List Nat).length : Int) ≥ rem := by simp; omega
            rw [if_neg h2]
            simp only [if_true]
            have hg1 : getElem (growPayload r e [b]).elements (growPayload r e [b]).tmpIndex
                = some (some { e with data := e.data ++ [b] }) := by
              simp only [growPayload]
              exact getElem_set _ _ _ hi0 hi1
            have hrem1 : ({ e with data := e.data ++ [b] } : Element).size -
                ((({ e with data := e.data ++ [b] } : Element).data.length : Nat) : Int)
                  = rem - 1 := by
              simp; omega
            have hst : (growPayload r e [b]).state =
                parseProcessingState.ELEM_STRING_INITIALIZING := by
              simpa [growPayload] using hs
            have hnat : rem.toNat = (rem - 1).toNat + 1 := by omega
            cases rest with
            | nil =>
              have h1 : ¬ (([b] : List Nat).length : Int) ≥ rem := h2
              rw [if_neg h1, write_nil]
            | cons c rest1 =>
              rw [write_payload_state _ c rest1 hst,
                writeBinaryString_eq _ _ (c :: rest1) _ hg1, hrem1]
              by_cases hlen : ((b :: c :: rest1).length : Int) ≥ rem
              · have hlen1 : ((c :: rest1).length : Int) ≥ rem - 1 := by
                  simp at hlen ⊢; omega
                rw [if_pos hlen, if_pos hlen1, if_neg hneg, if_neg (by omega), hnat]
                simp [sealPayload, growPayload, List.set_set]
              · have hlen1 : ¬ ((c :: rest1).length : Int) ≥ rem - 1 := by
                  simp at hlen ⊢; omega
                rw [if_neg hlen, if_neg hlen1]
                simp [growPayload, List.set_set]

theorem write_elem_state (r : Parser) (b : Nat) (rest : List Nat)
    (hs : r.state = parseProcessingState.ELEM_INITIALIZING) :
    write r (b :: rest) =
      if r.count ≤ r.tmpIndex then (protocolError "Unknown write error", r)
      else if b = 36 then
        write { r with state := parseProcessingState.ELEM_STRING_SIZE_INITIALIZING } rest
      else if b = 43 then writeSimpleStringSize r rest
      else if b = 45 then writeErrorStringSize r rest
      else (protocolError "Unknown write error", r) := by
  rw [write_eq]; simp [writeBody, hs]

theorem write_uninit_state (r : Parser) (b : Nat) (rest : List Nat)
    (hs : r.state = parseProcessingState.UNINITIALIZED) :
    write r (b :: rest) =
      if b = 42 then
        write { r with state := parseProcessingState.ELEM_COUNT_INITIALIZING } rest
      else
        write { r with count := 1, state := parseProcessingState.ELEM_INITIALIZING,
                       elements := [none] } (b :: rest) := by
  rw [write_eq]; simp [writeBody, hs]

theorem write_initialized_state (r : Parser) (b : Nat) (rest : List Nat)
    (hs : r.state = parseProcessingState.INITIALIZED) :
    write r (b :: rest) = (protocolError "Unknown write error", r) := by
  rw [write_eq]; simp [writeBody, hs]

theorem peel_elem (r : Parser) (b : Nat) (rest : List Nat)
    (hs : r.state = parseProcessingState.ELEM_INITIALIZING) (h43 : b ≠ 43) (h45 : b ≠ 45) :
    write r (b :: rest) =
      if (write r [b]).1 = Ret.nil then write (write r [b]).2 rest else write r [b] := by
  rw [write_elem_state r b rest hs, write_elem_state r b [] hs]
  by_cases hc : r.count ≤ r.tmpIndex
  · simp [hc, protocolError]
  · by_cases h36 : b = 36
    · simp [hc, h36, write_nil]
    · simp [hc, h36, h43, h45, protocolError]

theorem peel_uninit (r : Parser) (b : Nat) (rest : List Nat)
    (hs : r.state = parseProcessingState.UNINITIALIZED) (h43 : b ≠ 43) (h45 : b ≠ 45) :
    write r (b :: rest) =
      if (write r [b]).1 = Ret.nil then write (write r [b]).2 rest else write r [b] := by
  rw [write_uninit_state r b rest hs, write_uninit_state r b [] hs]
  by_cases h42 : b = 42
  · simp [h42, write_nil]
  · simp only [h42, if_false]
    exact peel_elem _ b rest rfl h43 h45

/-- Outside the dispatch of a simple or error string, `write` of a chunk is
`write` of its first byte followed, when that returned `nil`, by `write` of
the rest. -/
theorem peel (r : Parser) (b : Nat) (rest : List Nat) (h : ¬ startsString r b) :
    write r (b :: rest) =
      if (write r [b]).1 = Ret.nil then write (write r [b]).2 rest else write r [b] := by
  unfold startsString at h
  cases hs : r.state with
  | UNINITIALIZED =>
    exact peel_uninit r b rest hs (fun hb => h ⟨Or.inl hs, Or.inl hb⟩)
      (fun hb => h ⟨Or.inl hs, Or.inr hb⟩)
  | ELEM_COUNT_INITIALIZING => exact peel_count r b rest hs
  | ELEM_COUNT_INITIALIZED => exact peel_crlf r b rest (Or.inl hs)
  | ELEM_INITIALIZING =>
    exact peel_elem r b rest hs (fun hb => h ⟨Or.inr hs, Or.inl hb⟩)
      (fun hb => h ⟨Or.inr hs, Or.inr hb⟩)
  | ELEM_STRING_SIZE_INITIALIZING => exact peel_size r b rest hs
  | ELEM_STRING_SIZE_INITIALIZED => exact peel_crlf r b rest (Or.inr (Or.inl hs))
  | ELEM_STRING_INITIALIZING => exact peel_payload r b rest hs
  | ELEM_STRING_INITIALIZED => exact peel_crlf r b rest (Or.inr (Or.inr hs))
  | INITIALIZED =>
    rw [write_initialized_state r b rest hs, write_initialized_state r b [] hs]
    simp [protocolError]

theorem runEnd_append (r : Parser) (a b : List Nat) :
    runEnd r (a ++ b) = runEnd (runEnd r a) b := by
  induction a generalizing r with
  | nil => rfl
  | cons x a ih => exact ih _

theorem cleanRun_append (r : Parser) (a b : List Nat) :
    cleanRun r (a ++ b) ↔ cleanRun r a ∧ cleanRun (runEnd r a) b := by
  induction a generalizing r with
  | nil => simp [cleanRun, runEnd]
  | cons x a ih =>
    show (¬ startsString r x ∧ (write r [x]).1 = Ret.nil ∧ cleanRun (write r [x]).2 (a ++ b)) ↔
      (¬ startsString r x ∧ (write r [x]).1 = Ret.nil ∧ cleanRun (write r [x]).2 a) ∧
        cleanRun (runEnd (write r [x]).2 a) b
    rw [ih]
    simp only [and_assoc]

/-- A clean run does not depend on the chunking: the whole chunk written in
one call returns `nil` and ends in the same parser. -/
theorem write_of_cleanRun (r : Parser) (bs : List Nat) (h : cleanRun r bs) :
    write r bs = (Ret.nil, runEnd r bs) := by
  induction bs generalizing r with
  | nil => exact write_nil r
  | cons b rest ih =>
    obtain ⟨h1, h2, h3⟩ := h
    rw [peel r b rest h1, if_pos h2]
    exact ih _ h3

theorem writeAll_of_cleanRun (r : Parser) (cs : List (List Nat))
    (h : cleanRun r cs.flatten) :
    writeAll r cs = (List.replicate cs.length Ret.nil, runEnd r cs.flatten) := by
  induction cs generalizing r with
  | nil => rfl
  | cons c cs ih =>
    rw [List.flatten_cons, cleanRun_append] at h
    have hw := write_of_cleanRun r c h.1
    have h2 := ih (runEnd r c) h.2
    simp only [writeAll, hw, h2, List.flatten_cons, runEnd_append, List.length_cons,
      List.replicate_succ]

theorem parseDigits_append (a : Nat) (xs ys : List Nat) :
    parseDigits a (xs ++ ys) = (parseDigits a xs).bind (fun v => parseDigits v ys) := by
  induction xs generalizing a with
  | nil => simp [parseDigits]
  | cons x xs ih =>
    simp only [List.cons_append, parseDigits]
    split_ifs
    · exact ih _
    · rfl

theorem decFuel_spec (fuel n : Nat) (h : n < fuel) (acc : List Nat) :
    ∃ ds : List Nat, decFuel fuel n acc = ds ++ acc ∧ ds ≠ [] ∧
      (∀ d ∈ ds, 48 ≤ d ∧ d ≤ 57) ∧
      ∀ a, parseDigits a ds = some (a * 10 ^ ds.length + n) := by
  induction fuel generalizing n acc with
  | zero => omega
  | succ fuel ih =>
    unfold decFuel
    by_cases hn : n < 10
    · rw [if_pos hn]
      refine ⟨[48 + n], rfl, by simp, ?_, ?_⟩
      · intro d hd
        simp at hd
        omega
      · intro a
        simp [parseDigits]
        omega
    · rw [if_neg hn]
      obtain ⟨ds, h1, h2, h3, h4⟩ := ih (n / 10) (by omega) ((48 + n % 10) :: acc)
      refine ⟨ds ++ [48 + n % 10], by rw [h1]; simp, by simp, ?_, ?_⟩
      · intro d hd
        rcases List.mem_append.mp hd with hd | hd
        · exact h3 d hd
        · simp at hd
          omega
      · intro a
        rw [parseDigits_append, h4]
        simp only [Option.some_bind, parseDigits]
        rw [if_pos (by omega)]
        simp only [List.length_append, List.length_singleton, pow_succ]
        congr 1
        have := Nat.div_add_mod n 10
        rw [show 48 + n % 10 - 48 = n % 10 by omega]
        ring_nf
        omega

theorem dec_ne_nil (n : Nat) : dec n ≠ [] := by
  obtain ⟨ds, h1, h2, _, _⟩ := decFuel_spec (n + 1) n (by omega) []
  unfold dec
  rw [h1]
  simpa using h2

theorem dec_digits (n : Nat) : ∀ d ∈ dec n, 48 ≤ d ∧ d ≤ 57 := by
  obtain ⟨ds, h1, _, h3, _⟩ := decFuel_spec (n + 1) n (by omega) []
  unfold dec
  rw [h1]
  simpa using h3

theorem parseDigits_dec (n : Nat) : parseDigits 0 (dec n) = some n := by
  obtain ⟨ds, h1, _, _, h4⟩ := decFuel_spec (n + 1) n (by omega) []
  unfold dec
  rw [h1, List.append_nil, h4]
  simp

theorem atoi_digit_head (d : Nat) (ds : List Nat) (h : 48 ≤ d ∧ d ≤ 57) :
    atoi (d :: ds) =
      match parseDigits 0 (d :: ds) with
      | some n => if n ≤ maxInt then some (n : Int) else none
      | none => none := by
  unfold atoi
  split
  · rename_i heq; cases heq
  · rename_i heq
    injection heq with h1 _
    omega
  · rename_i heq
    injection heq with h1 _
    omega
  · rename_i heq
    injection heq with h1 h2
    subst h1 h2
    rfl

theorem atoi_dec (n : Nat) (h : n ≤ maxInt) : atoi (dec n) = some (n : Int) := by
  have hd := dec_digits n
  have hp := parseDigits_dec n
  cases hdec : dec n with
  | nil => exact absurd hdec (dec_ne_nil n)
  | cons d ds =>
    rw [hdec] at hd hp
    rw [atoi_digit_head d ds (hd d (by simp)), hp]
    simp [h]

theorem Run.nil (r : Parser) : Run r [] r := ⟨trivial, rfl⟩

theorem Run.of_eq {r r1 : Parser} (h : r = r1) : Run r [] r1 := ⟨trivial, h⟩

theorem Run.cons {r r1 r2 : Parser} {b : Nat} {rest : List Nat}
    (h0 : ¬ startsString r b) (h1 : write r [b] = (Ret.nil, r1)) (h2 : Run r1 rest r2) :
    Run r (b :: rest) r2 := by
  refine ⟨⟨h0, by rw [h1], by rw [h1]; exact h2.1⟩, ?_⟩
  show runEnd (write r [b]).2 rest = r2
  rw [h1]
  exact h2.2

theorem Run.append {r r1 r2 : Parser} {a b : List Nat} (h1 : Run r a r1) (h2 : Run r1 b r2) :
    Run r (a ++ b) r2 := by
  refine ⟨(cleanRun_append r a b).mpr ⟨h1.1, by rw [h1.2]; exact h2.1⟩, ?_⟩
  rw [runEnd_append, h1.2]
  exact h2.2

theorem not_startsString_of_state (r : Parser) (b : Nat)
    (h1 : r.state ≠ parseProcessingState.UNINITIALIZED)
    (h2 : r.state ≠ parseProcessingState.ELEM_INITIALIZING) : ¬ startsString r b := by
  unfold startsString
  tauto

theorem write_cr (r : Parser) (hs : isCRLFState r.state) (hc : r.tmpCrlfState = 0) :
    write r [13] = (Ret.nil, { r with tmpCrlfState := 1 }) := by
  rw [write_crlf_state r 13 [] hs]
  simp [writeCRLF, hc]

theorem write_lf (r : Parser) (hs : isCRLFState r.state) (hc : r.tmpCrlfState = 1) :
    write r [10] =
      (Ret.nil, { r with tmpCrlfState := 0, state := r.nextState,
                         nextState := parseProcessingState.UNINITIALIZED }) := by
  rw [write_crlf_state r 10 [] hs]
  simp [writeCRLF, hc, write_nil]

theorem write_star (r : Parser) (hs : r.state = parseProcessingState.UNINITIALIZED) :
    write r [42] = (Ret.nil, { r with state := parseProcessingState.ELEM_COUNT_INITIALIZING }) := by
  rw [write_uninit_state r 42 [] hs]
  simp [write_nil]

theorem write_dollar (r : Parser) (hs : r.state = parseProcessingState.ELEM_INITIALIZING)
    (hi : r.tmpIndex < r.count) :
    write r [36] =
      (Ret.nil, { r with state := parseProcessingState.ELEM_STRING_SIZE_INITIALIZING }) := by
  rw [write_elem_state r 36 [] hs]
  simp [write_nil, not_le.mpr hi]

theorem write_accepted (r : Parser) (b : Nat) (hs : isIntegerState r.state)
    (h : accepts r b) :
    write r [b] = (Ret.nil, { r with tmpNumber := some (appendSlice r.tmpNumber [b]) }) := by
  rcases hs with hs | hs
  · rw [write_count_state r b [] hs, writeElementsCount_eq, withInteger_acc _ r b [] h,
      withInteger_nil]
  · rw [write_size_state r b [] hs, writeBinaryStringSize_eq, withInteger_acc _ r b [] h,
      withInteger_nil]

theorem appendSlice_some_append (t : Option (List Nat)) (d : Nat) (ds : List Nat) :
    appendSlice (some (appendSlice t [d])) ds = appendSlice t (d :: ds) := by
  cases t <;> simp [appendSlice]

theorem run_digits (r : Parser) (ds : List Nat) (hs : isIntegerState r.state)
    (hds : ∀ d ∈ ds, 48 ≤ d ∧ d ≤ 57) (hne : ds ≠ []) :
    Run r ds { r with tmpNumber := some (appendSlice r.tmpNumber ds) } := by
  induction ds generalizing r with
  | nil => exact absurd rfl hne
  | cons d ds ih =>
    have hd := hds d (by simp)
    have hns : ¬ startsString r d := by
      rcases hs with hs | hs <;>
        exact not_startsString_of_state r d (by rw [hs]; simp) (by rw [hs]; simp)
    have hw := write_accepted r d hs (Or.inr hd)
    by_cases hnil : ds = []
    · subst hnil
      exact Run.cons hns hw (Run.nil _)
    · have h2 := ih { r with tmpNumber := some (appendSlice r.tmpNumber [d]) } hs
        (fun x hx => hds x (by simp [hx])) hnil
      simp only [appendSlice_some_append] at h2
      exact Run.cons hns hw h2

theorem maxAlloc_le_maxInt (k : Nat) (h : ptrSize * k ≤ maxAlloc) : k ≤ maxInt := by
  unfold ptrSize maxAlloc at h
  unfold maxInt
  omega

theorem not_accepts_cr (r : Parser) : ¬ accepts r 13 := by
  unfold accepts
  omega

theorem write_count_cr (r : Parser) (n : Nat)
    (hs : r.state = parseProcessingState.ELEM_COUNT_INITIALIZING)
    (ha : atoi (sliceBytes r.tmpNumber) = some (n : Int)) (hc : r.tmpCrlfState = 0)
    (hn : ptrSize * n ≤ maxAlloc) :
    write r [13] = (Ret.nil,
      { r with tmpNumber := none, count := (n : Int),
               state := parseProcessingState.ELEM_COUNT_INITIALIZED,
               nextState := parseProcessingState.ELEM_INITIALIZING,
               elements := List.replicate n none, tmpCrlfState := 1 }) := by
  rw [write_count_state r 13 [] hs, writeElementsCount_eq,
    withInteger_stop _ r 13 [] (not_accepts_cr r)]
  simp only [if_true, ha, countCont, makeElements]
  rw [if_neg (by omega)]
  simp only [Int.toNat_ofNat]
  rw [write_cr _ (Or.inl rfl) (by exact hc)]

theorem run_header (r : Parser) (k : Nat)
    (hs : r.state = parseProcessingState.UNINITIALIZED) (ht : r.tmpNumber = none)
    (hc : r.tmpCrlfState = 0) (hk : ptrSize * k ≤ maxAlloc) :
    Run r (42 :: (dec k ++ [13, 10]))
      { r with count := (k : Int), elements := List.replicate k none,
               state := parseProcessingState.ELEM_INITIALIZING,
               nextState := parseProcessingState.UNINITIALIZED } := by
  have hns : ¬ startsString r 42 := by unfold startsString; omega
  have hk1 : k ≤ maxInt := maxAlloc_le_maxInt k hk
  refine Run.cons hns (write_star r hs) ?_
  refine Run.append (run_digits _ (dec k) (Or.inl rfl) (dec_digits k) (dec_ne_nil k)) ?_
  refine Run.cons (not_startsString_of_state _ _ (by simp) (by simp))
    (write_count_cr _ k rfl (by simp [ht, appendSlice, sliceBytes, atoi_dec k hk1]) hc hk) ?_
  refine Run.cons (not_startsString_of_state _ _ (by simp) (by simp))
    (write_lf _ (Or.inl rfl) rfl) ?_
  refine Run.of_eq ?_
  cases r
  simp only at ht hc
  simp [ht, hc, appendSlice]

theorem set_append_cons (pre post : List (Option Element)) (x v : Option Element) :
    (pre ++ x :: post).set pre.length v = pre ++ v :: post := by
  induction pre with
  | nil => rfl
  | cons a pre ih => simp [ih]

theorem getElem_append_cons (pre post : List (Option Element)) (x : Option Element) :
    getElem (pre ++ x :: post) (pre.length : Int) = some x := by
  unfold getElem
  rw [if_neg (by omega), Int.toNat_ofNat]
  induction pre with
  | nil => rfl
  | cons a pre ih => simpa using ih

theorem setElem_append_cons (pre post : List (Option Element)) (x : Option Element)
    (e : Element) :
    setElem (pre ++ x :: post) (pre.length : Int) e = some (pre ++ some e :: post) := by
  unfold setElem
  rw [if_neg (by omega), Int.toNat_ofNat, if_pos (by simp), set_append_cons]

theorem write_size_cr (r : Parser) (n : Nat) (es : List (Option Element))
    (hs : r.state = parseProcessingState.ELEM_STRING_SIZE_INITIALIZING)
    (ha : atoi (sliceBytes r.tmpNumber) = some (n : Int))
    (hset : setElem r.elements r.tmpIndex
      { kind := resultTypeCode.BINARY_STRING, size := (n : Int), data := [] } = some es)
    (hc : r.tmpCrlfState = 0) :
    write r [13] = (Ret.nil,
      { r with tmpNumber := none, elements := es,
               state := parseProcessingState.ELEM_STRING_SIZE_INITIALIZED,
               nextState := parseProcessingState.ELEM_STRING_INITIALIZING,
               tmpCrlfState := 1 }) := by
  rw [write_size_state r 13 [] hs, writeBinaryStringSize_eq,
    withInteger_stop _ r 13 [] (not_accepts_cr r)]
  simp only [if_true, ha, sizeCont, hset]
  rw [if_neg (by omega)]
  rw [write_cr _ (Or.inr (Or.inl rfl)) (by exact hc)]

theorem write_payload_grow (r : Parser) (e : Element) (x : Nat)
    (hs : r.state = parseProcessingState.ELEM_STRING_INITIALIZING)
    (hg : getElem r.elements r.tmpIndex = some (some e))
    (h : (e.data.length : Int) + 1 < e.size) :
    write r [x] = (Ret.nil, growPayload r e [x]) := by
  rw [write_payload_state r x [] hs, writeBinaryString_eq _ r [x] e hg]
  rw [if_neg (by simp; omega)]

theorem write_payload_last (r : Parser) (e : Element) (x : Nat)
    (hs : r.state = parseProcessingState.ELEM_STRING_INITIALIZING)
    (hg : getElem r.elements r.tmpIndex = some (some e))
    (h : (e.data.length : Int) + 1 = e.size) :
    write r [x] = (Ret.nil, sealPayload r e [x]) := by
  rw [write_payload_state r x [] hs, writeBinaryString_eq _ r [x] e hg]
  have h1 : e.size - (e.data.length : Int) = 1 := by omega
  rw [h1, if_pos (by simp), if_neg (by omega)]
  simp [write_nil]

theorem write_payload_empty_cr (r : Parser) (e : Element)
    (hs : r.state = parseProcessingState.ELEM_STRING_INITIALIZING)
    (hg : getElem r.elements r.tmpIndex = some (some e))
    (h : (e.data.length : Int) = e.size) (hc : r.tmpCrlfState = 0) :
    write r [13] = (Ret.nil, { sealPayload r e [] with tmpCrlfState := 1 }) := by
  rw [write_payload_state r 13 [] hs, writeBinaryString_eq _ r [13] e hg]
  have h1 : e.size - (e.data.length : Int) = 0 := by omega
  rw [h1, if_pos (by simp), if_neg (by omega)]
  simp only [Int.toNat_zero, List.take_zero, List.drop_zero]
  rw [write_cr _ (Or.inr (Or.inr rfl)) (by exact hc)]

theorem set_get_self (es : List (Option Element)) (i : Nat) (v : Option Element)
    (h : es.get? i = some v) : es.set i v = es := by
  induction es generalizing i with
  | nil => rfl
  | cons a es ih =>
    cases i with
    | zero => simp at h; simp [h]
    | succ i => simp at h; simp [ih i (by simpa using h)]

theorem growPayload_nil (r : Parser) (e : Element)
    (hg : getElem r.elements r.tmpIndex = some (some e)) : growPayload r e [] = r := by
  obtain ⟨h0, h1⟩ := getElem_some _ _ _ hg
  unfold getElem at hg
  rw [if_neg (by omega)] at hg
  cases r
  simp only [growPayload, List.append_nil] at hg ⊢
  rw [set_get_self _ _ _ hg]

theorem growPayload_grow (r : Parser) (e : Element) (x : Nat) (xs : List Nat) :
    growPayload (growPayload r e [x]) { e with data := e.data ++ [x] } xs =
      growPayload r e (x :: xs) := by
  simp [growPayload, List.set_set]

theorem run_payload_grow (r : Parser) (e : Element) (xs : List Nat)
    (hs : r.state = parseProcessingState.ELEM_STRING_INITIALIZING)
    (hg : getElem r.elements r.tmpIndex = some (some e))
    (h : (e.data.length : Int) + (xs.length : Int) < e.size) :
    Run r xs (growPayload r e xs) := by
  induction xs generalizing r e with
  | nil => exact Run.of_eq (growPayload_nil r e hg).symm
  | cons x xs ih =>
    obtain ⟨h0, h1⟩ := getElem_some _ _ _ hg
    simp only [List.length_cons, Nat.cast_add, Nat.cast_one] at h
    refine Run.cons (not_startsString_of_state r x (by rw [hs]; simp) (by rw [hs]; simp))
      (write_payload_grow r e x hs hg (by omega)) ?_
    have h2 := ih (growPayload r e [x]) { e with data := e.data ++ [x] } hs
      (getElem_set _ _ _ h0 h1) (by simp; omega)
    rw [growPayload_grow] at h2
    exact h2

theorem sealPayload_grow (r : Parser) (e : Element) (xs : List Nat) (x : Nat) :
    sealPayload (growPayload r e xs) { e with data := e.data ++ xs } [x] =
      sealPayload r e (xs ++ [x]) := by
  simp [growPayload, sealPayload, List.set_set]

theorem run_payload_cr (r : Parser) (e : Element) (p : List Nat)
    (hs : r.state = parseProcessingState.ELEM_STRING_INITIALIZING)
    (hg : getElem r.elements r.tmpIndex = some (some e))
    (hd : e.data = []) (hsz : e.size = (p.length : Int)) (hc : r.tmpCrlfState = 0) :
    Run r (p ++ [13]) { sealPayload r e p with tmpCrlfState := 1 } := by
  obtain ⟨h0, h1⟩ := getElem_some _ _ _ hg
  rcases List.eq_nil_or_concat p with hp | ⟨init, last, hp⟩
  · subst hp
    refine Run.cons (not_startsString_of_state r _ (by rw [hs]; simp) (by rw [hs]; simp))
      (write_payload_empty_cr r e hs hg (by simp [hd, hsz]) hc) (Run.nil _)
  · rw [List.concat_eq_append] at hp
    subst hp
    rw [List.append_assoc]
    refine Run.append (run_payload_grow r e init hs hg (by rw [hd, hsz]; simp)) ?_
    have hw := write_payload_last (growPayload r e init) { e with data := e.data ++ init } last
      hs (getElem_set _ _ _ h0 h1) (by rw [hd, hsz]; simp)
    rw [sealPayload_grow] at hw
    refine Run.cons (not_startsString_of_state _ _ (by simp [growPayload, hs])
      (by simp [growPayload, hs])) hw ?_
    exact Run.cons (not_startsString_of_state _ _ (by simp [sealPayload])
      (by simp [sealPayload])) (write_cr _ (Or.inr (Or.inr rfl)) (by simpa [sealPayload] using hc))
      (Run.nil _)

theorem run_bulk (c : Int) (pre post : List (Option Element)) (x : Option Element)
    (ns : parseProcessingState) (ts : Option (List Nat)) (p : List Nat)
    (hi : (pre.length : Int) < c) (hp : p.length ≤ maxInt) :
    Run { count := c, elements := pre ++ x :: post,
          state := parseProcessingState.ELEM_INITIALIZING, nextState := ns,
          tmpIndex := (pre.length : Int), tmpNumber := none, tmpString := ts,
          tmpCrlfState := 0 }
      (encodeBulk p)
      { count := c, elements := pre ++ some (bulkElement p) :: post,
        state := parseProcessingState.ELEM_INITIALIZING,
        nextState := parseProcessingState.UNINITIALIZED,
        tmpIndex := (pre.length : Int) + 1, tmpNumber := none, tmpString := ts,
        tmpCrlfState := 0 } := by
  have hbytes : encodeBulk p =
      36 :: (dec p.length ++ (13 :: 10 :: ((p ++ [13]) ++ [10]))) := by
    simp [encodeBulk]
  rw [hbytes]
  refine Run.cons (by unfold startsString; omega) (write_dollar _ rfl hi) ?_
  refine Run.append (run_digits _ (dec p.length) (Or.inr rfl) (dec_digits _) (dec_ne_nil _)) ?_
  dsimp only
  refine Run.cons (not_startsString_of_state _ _ (by simp) (by simp))
    (write_size_cr _ p.length _ rfl (by simp [appendSlice, sliceBytes, atoi_dec _ hp])
      (setElem_append_cons pre post x _) rfl) ?_
  dsimp only
  refine Run.cons (not_startsString_of_state _ _ (by simp) (by simp))
    (write_lf _ (Or.inr (Or.inl rfl)) rfl) ?_
  dsimp only
  refine Run.append (run_payload_cr _ _ p rfl (getElem_append_cons pre post _) rfl rfl
    rfl) ?_
  refine Run.cons (not_startsString_of_state _ _ (by simp [sealPayload])
    (by simp [sealPayload])) (write_lf _ (Or.inr (Or.inr rfl)) rfl) ?_
  refine Run.of_eq ?_
  simp [sealPayload, set_append_cons, bulkElement]

theorem run_bulks (c : Int) (ps : List (List Nat)) (pre post : List (Option Element))
    (ts : Option (List Nat))
    (hi : ((pre.length + ps.length : Nat) : Int) ≤ c) (hp : ∀ p ∈ ps, p.length ≤ maxInt) :
    Run { count := c, elements := pre ++ (List.replicate ps.length none ++ post),
          state := parseProcessingState.ELEM_INITIALIZING,
          nextState := parseProcessingState.UNINITIALIZED,
          tmpIndex := (pre.length : Int), tmpNumber := none, tmpString := ts,
          tmpCrlfState := 0 }
      (encodeBulks ps)
      { count := c, elements := pre ++ (ps.map (fun p => some (bulkElement p)) ++ post),
        state := parseProcessingState.ELEM_INITIALIZING,
        nextState := parseProcessingState.UNINITIALIZED,
        tmpIndex := ((pre.length + ps.length : Nat) : Int), tmpNumber := none,
        tmpString := ts, tmpCrlfState := 0 } := by
  induction ps generalizing pre with
  | nil => exact Run.of_eq (by simp)
  | cons p ps ih =>
    simp only [List.length_cons] at hi
    have h1 := run_bulk c pre (List.replicate ps.length none ++ post) none
      parseProcessingState.UNINITIALIZED ts p (by push_cast at hi ⊢; omega)
      (hp p (by simp))
    have h2 := ih (pre ++ [some (bulkElement p)]) (by simp; push_cast at hi ⊢; omega)
      (fun q hq => hp q (by simp [hq]))
    simp only [List.append_assoc, List.singleton_append, List.length_append,
      List.length_singleton, Nat.cast_add, Nat.cast_one] at h2
    simp only [encodeBulks, List.length_cons, List.replicate_succ, List.cons_append,
      List.map_cons]
    refine Run.append h1 ?_
    convert h2 using 2
    push_cast
    ring

theorem run_array (ps : List (List Nat)) (hk : ptrSize * ps.length ≤ maxAlloc)
    (hp : ∀ p ∈ ps, p.length ≤ maxInt) :
    Run NewParser (encodeArray ps) (decodedArray ps) := by
  unfold encodeArray
  rw [← List.cons_append]
  refine Run.append (run_header NewParser ps.length rfl rfl rfl hk) ?_
  have h := run_bulks (ps.length : Int) ps [] [] none (by simp) hp
  simpa [NewParser, decodedArray] using h

/-! ## Simple and error strings -/

theorem findCR_append (i : Nat) (s rest : List Nat) (h : 13 ∉ s) :
    findCR i (s ++ 13 :: rest) = some (i + s.length) := by
  induction s generalizing i with
  | nil => simp [findCR]
  | cons b s ih =>
    have hb : b ≠ 13 := fun hb => h (by simp [hb])
    have hs : 13 ∉ s := fun hs => h (by simp [hs])
    show findCR i (b :: (s ++ 13 :: rest)) = some (i + (b :: s).length)
    simp only [findCR, hb, if_false, List.length_cons]
    rw [ih (i + 1) hs]
    congr 1
    omega

theorem findCR_none (i : Nat) (s : List Nat) (h : 13 ∉ s) : findCR i s = none := by
  induction s generalizing i with
  | nil => rfl
  | cons b s ih =>
    have hb : b ≠ 13 := fun hb => h (by simp [hb])
    have hs : 13 ∉ s := fun hs => h (by simp [hs])
    simp only [findCR, hb, if_false]
    exact ih (i + 1) hs

theorem writeStringSize_sealed (kind : resultTypeCode) (s rest : List Nat) (h : 13 ∉ s) :
    writeStringSize kind inlineStart (s ++ 13 :: rest) =
      (Ret.nil,
        { count := 1,
          elements := [some { kind := kind, size := (s.length : Int), data := s }],
          state := parseProcessingState.ELEM_INITIALIZING,
          nextState := parseProcessingState.UNINITIALIZED,
          tmpIndex := 1, tmpNumber := none, tmpString := none, tmpCrlfState := 0 }) := by
  unfold writeStringSize
  simp only [findCR_append 0 s rest h]
  simp [inlineStart, NewParser, appendSlice, sliceBytes, setElem, NewElement]

/-- Claim C4. For every byte string `s` without a CR, `write('+' ++ s ++ CR)`
on a fresh parser returns `nil` and leaves `count = 1`, `tmpIndex = 1` and the
single element `SIMPLE_STRING` with `data = s`, `size = len(s)`; `eof` then
returns `nil` and sets the state to `INITIALIZED`.  With `-` in place of `+`
the element is an `ERROR_STRING` with the same data. -/
theorem C4_inline_string_decoding (s : List Nat) (h : 13 ∉ s) :
    write NewParser (43 :: (s ++ [13])) =
      (Ret.nil,
        { count := 1,
          elements := [some { kind := resultTypeCode.SIMPLE_STRING,
                              size := (s.length : Int), data := s }],
          state := parseProcessingState.ELEM_INITIALIZING,
          nextState := parseProcessingState.UNINITIALIZED,
          tmpIndex := 1, tmpNumber := none, tmpString := none, tmpCrlfState := 0 }) ∧
    (eof (write NewParser (43 :: (s ++ [13]))).2).1 = Ret.nil ∧
    (eof (write NewParser (43 :: (s ++ [13]))).2).2.state = parseProcessingState.INITIALIZED ∧
    (eof (write NewParser (43 :: (s ++ [13]))).2).2.count = 1 ∧
    (eof (write NewParser (43 :: (s ++ [13]))).2).2.elements =
      [some { kind := resultTypeCode.SIMPLE_STRING, size := (s.length : Int), data := s }] ∧
    write NewParser (45 :: (s ++ [13])) =
      (Ret.nil,
        { count := 1,
          elements := [some { kind := resultTypeCode.ERROR_STRING,
                              size := (s.length : Int), data := s }],
          state := parseProcessingState.ELEM_INITIALIZING,
          nextState := parseProcessingState.UNINITIALIZED,
          tmpIndex := 1, tmpNumber := none, tmpString := none, tmpCrlfState := 0 }) ∧
    (eof (write NewParser (45 :: (s ++ [13]))).2).1 = Ret.nil ∧
    (eof (write NewParser (45 :: (s ++ [13]))).2).2.state = parseProcessingState.INITIALIZED ∧
    (eof (write NewParser (45 :: (s ++ [13]))).2).2.count = 1 ∧
    (eof (write NewParser (45 :: (s ++ [13]))).2).2.elements =
      [some { kind := resultTypeCode.ERROR_STRING, size := (s.length : Int), data := s }] := by
  have h1 : write NewParser (43 :: (s ++ [13])) =
      writeStringSize resultTypeCode.SIMPLE_STRING inlineStart (s ++ [13]) := by
    rw [write_uninit_state _ _ _ rfl, if_neg (by decide), write_elem_state _ _ _ rfl]
    simp [writeSimpleStringSize, inlineStart, NewParser]
  have h2 : write NewParser (45 :: (s ++ [13])) =
      writeStringSize resultTypeCode.ERROR_STRING inlineStart (s ++ [13]) := by
    rw [write_uninit_state _ _ _ rfl, if_neg (by decide), write_elem_state _ _ _ rfl]
    simp [writeErrorStringSize, inlineStart, NewParser]
  rw [h1, h2, writeStringSize_sealed _ s [] h, writeStringSize_sealed _ s [] h]
  simp [eof]

/-- Witness of C4: `+OK\r` decodes to the single simple string `OK`. -/
theorem C4_inline_string_decoding_witness :
    13 ∉ bytes "OK" ∧
    write NewParser (bytes "+OK\r") =
      (Ret.nil,
        { count := 1,
          elements := [some { kind := resultTypeCode.SIMPLE_STRING, size := 2,
                              data := bytes "OK" }],
          state := parseProcessingState.ELEM_INITIALIZING,
          nextState := parseProcessingState.UNINITIALIZED,
          tmpIndex := 1, tmpNumber := none, tmpString := none, tmpCrlfState := 0 }) :=
  ⟨by decide, (C4_inline_string_decoding (bytes "OK") (by decide)).1⟩

/-! ## Arrays of bulk strings -/

/-- Claim C2. For every list `ps` of byte strings (any bytes, CR and LF
included) that a Go program can hold (a slice of `k` byte slices is one
allocation of more than `ptrSize * k` bytes, so `ptrSize * k <= maxAlloc`; a
payload is a slice, of length at most `maxInt`), writing the array message
`encodeArray ps` to a fresh parser in one call returns `nil`; `eof` then
returns `nil` and leaves the state `INITIALIZED`, `count = len(ps)` and, in
order, one `BINARY_STRING` element per payload with `size = len(p)` and
`data = p`. -/
theorem C2_bulk_array_decoding (ps : List (List Nat)) (hk : ptrSize * ps.length ≤ maxAlloc)
    (hp : ∀ p ∈ ps, p.length ≤ maxInt) :
    (write NewParser (encodeArray ps)).1 = Ret.nil ∧
    (eof (write NewParser (encodeArray ps)).2).1 = Ret.nil ∧
    (eof (write NewParser (encodeArray ps)).2).2.state = parseProcessingState.INITIALIZED ∧
    (eof (write NewParser (encodeArray ps)).2).2.count = (ps.length : Int) ∧
    (eof (write NewParser (encodeArray ps)).2).2.elements =
      ps.map (fun p => some { kind := resultTypeCode.BINARY_STRING,
                              size := (p.length : Int), data := p }) := by
  have h := write_of_cleanRun _ _ (run_array ps hk hp).1
  rw [(run_array ps hk hp).2] at h
  rw [h]
  simp [eof, decodedArray, bulkElement]

/-- Witness of C2: `*2\r\n$3\r\nfoo\r\n$3\r\nbar\r\n` decodes to `foo` then
`bar`. -/
theorem C2_bulk_array_decoding_witness :
    encodeArray [bytes "foo", bytes "bar"] = bytes "*2\r\n$3\r\nfoo\r\n$3\r\nbar\r\n" ∧
    (write NewParser (bytes "*2\r\n$3\r\nfoo\r\n$3\r\nbar\r\n")).1 = Ret.nil ∧
    (eof (write NewParser (bytes "*2\r\n$3\r\nfoo\r\n$3\r\nbar\r\n")).2).1 = Ret.nil ∧
    (eof (write NewParser (bytes "*2\r\n$3\r\nfoo\r\n$3\r\nbar\r\n")).2).2.state =
      parseProcessingState.INITIALIZED ∧
    (eof (write NewParser (bytes "*2\r\n$3\r\nfoo\r\n$3\r\nbar\r\n")).2).2.count = 2 ∧
    (eof (write NewParser (bytes "*2\r\n$3\r\nfoo\r\n$3\r\nbar\r\n")).2).2.elements =
      [some { kind := resultTypeCode.BINARY_STRING, size := 3, data := bytes "foo" },
       some { kind := resultTypeCode.BINARY_STRING, size := 3, data := bytes "bar" }] :=
  ⟨by decide,
    C2_bulk_array_decoding [bytes "foo", bytes "bar"] (by decide) (by decide)⟩

/-- Claim C3. For every array message `encodeArray ps` of bulk strings (sizes
`>= 0`; `ps` a list that a Go program can hold: `ptrSize * len(ps) <= maxAlloc`
as for every slice of byte slices, payload lengths at most `maxInt`) and
every split `cs` of its bytes into chunks, the calls
`write(c1)`, ..., `write(cn)` on a fresh parser all return `nil`, and `eof`
afterwards returns the same value and leaves the same parser (count, state,
elements and every other field) as `eof` after one `write` of the whole
message; that parser holds the payloads in order.  This holds in particular
for the split into chunks of one byte. -/
theorem C3_bulk_array_rechunking (ps : List (List Nat)) (cs : List (List Nat))
    (hk : ptrSize * ps.length ≤ maxAlloc) (hp : ∀ p ∈ ps, p.length ≤ maxInt)
    (_hne : ∀ c ∈ cs, c ≠ []) (hcs : cs.flatten = encodeArray ps) :
    (∀ e ∈ (writeAll NewParser cs).1, e = Ret.nil) ∧
    (writeAll NewParser cs).1.length = cs.length ∧
    eof (writeAll NewParser cs).2 = eof (write NewParser (encodeArray ps)).2 ∧
    (write NewParser (encodeArray ps)).1 = Ret.nil ∧
    (eof (writeAll NewParser cs).2).1 = Ret.nil ∧
    (eof (writeAll NewParser cs).2).2.state = parseProcessingState.INITIALIZED ∧
    (eof (writeAll NewParser cs).2).2.count = (ps.length : Int) ∧
    (eof (writeAll NewParser cs).2).2.elements =
      ps.map (fun p => some { kind := resultTypeCode.BINARY_STRING,
                              size := (p.length : Int), data := p }) ∧
    (∀ e ∈ (writeAll NewParser ((encodeArray ps).map (fun b => [b]))).1, e = Ret.nil) ∧
    eof (writeAll NewParser ((encodeArray ps).map (fun b => [b]))).2 =
      eof (write NewParser (encodeArray ps)).2 := by
  have hrun := run_array ps hk hp
  have h1 := write_of_cleanRun _ _ hrun.1
  rw [hrun.2] at h1
  have h2 := writeAll_of_cleanRun NewParser cs (by rw [hcs]; exact hrun.1)
  rw [hcs, hrun.2] at h2
  have hflat : ((encodeArray ps).map (fun b => [b])).flatten = encodeArray ps := by
    induction encodeArray ps with
    | nil => rfl
    | cons b bs ih => simp [ih]
  have h3 := writeAll_of_cleanRun NewParser ((encodeArray ps).map (fun b => [b]))
    (by rw [hflat]; exact hrun.1)
  rw [hflat, hrun.2] at h3
  rw [h1, h2, h3]
  refine ⟨?_, by simp, rfl, rfl, ?_, ?_, ?_, ?_, ?_, rfl⟩
  · intro e he
    exact List.eq_of_mem_replicate he
  · simp [eof, decodedArray]
  · simp [eof, decodedArray]
  · simp [eof, decodedArray]
  · simp [eof, decodedArray, bulkElement]
  · intro e he
    exact List.eq_of_mem_replicate he

/-- Witness of C3: `*1\r\n$5\r\nhello\r\n` fed one byte per call gives one
`BINARY_STRING` with data `hello`. -/
theorem C3_bulk_array_rechunking_witness :
    ((bytes "*1\r\n$5\r\nhello\r\n").map (fun b => [b])).flatten =
      encodeArray [bytes "hello"] ∧
    (∀ e ∈ (writeAll NewParser ((bytes "*1\r\n$5\r\nhello\r\n").map (fun b => [b]))).1,
      e = Ret.nil) ∧
    (eof (writeAll NewParser ((bytes "*1\r\n$5\r\nhello\r\n").map (fun b => [b]))).2).2.elements
      = [some { kind := resultTypeCode.BINARY_STRING, size := 5, data := bytes "hello" }] :=
  have h := C3_bulk_array_rechunking [bytes "hello"]
    ((bytes "*1\r\n$5\r\nhello\r\n").map (fun b => [b])) (by decide) (by decide)
    (by decide) (by decide)
  ⟨by decide, h.1, h.2.2.2.2.2.2.2.1⟩

/-! ## Behaviour at the inputs where the code departs from the claims -/

/-- Claim C1 at the failing input `+OK\r` split as `+O`, `K\r`: written in one
call the message is accepted (`write` and `eof` return `nil`, one simple string
`OK`); written in two calls the first returns the non-nil sentinel
`parseContinue`, the second a protocol error, and no element is stored. -/
theorem C1_rechunking_breaks_simple_string :
    [bytes "+O", bytes "K\r"].flatten = bytes "+OK\r" ∧
    (write NewParser (bytes "+OK\r")).1 = Ret.nil ∧
    (eof (write NewParser (bytes "+OK\r")).2).1 = Ret.nil ∧
    (eof (write NewParser (bytes "+OK\r")).2).2.elements =
      [some { kind := resultTypeCode.SIMPLE_STRING, size := 2, data := bytes "OK" }] ∧
    (writeAll NewParser [bytes "+O", bytes "K\r"]).1 =
      [Ret.parseContinue, Ret.protocolError "Unknown write error"] ∧
    (eof (writeAll NewParser [bytes "+O", bytes "K\r"]).2).2.elements = [none] := by
  decide

/-- Claim C5 at the failing input `*2\r\n$3\r\nfoo\r\n`: after it the parser is
in `ELEM_INITIALIZING` with `tmpIndex = 1` and `count = 2`, and `eof` returns
`nil` and sets the state to `INITIALIZED`, the second slot still a nil
pointer. -/
theorem C5_eof_accepts_missing_element :
    (write NewParser (bytes "*2\r\n$3\r\nfoo\r\n")).1 = Ret.nil ∧
    (write NewParser (bytes "*2\r\n$3\r\nfoo\r\n")).2.state =
      parseProcessingState.ELEM_INITIALIZING ∧
    (write NewParser (bytes "*2\r\n$3\r\nfoo\r\n")).2.tmpIndex = 1 ∧
    (write NewParser (bytes "*2\r\n$3\r\nfoo\r\n")).2.count = 2 ∧
    (eof (write NewParser (bytes "*2\r\n$3\r\nfoo\r\n")).2).1 = Ret.nil ∧
    (eof (write NewParser (bytes "*2\r\n$3\r\nfoo\r\n")).2).2.state =
      parseProcessingState.INITIALIZED ∧
    (eof (write NewParser (bytes "*2\r\n$3\r\nfoo\r\n")).2).2.elements =
      [some { kind := resultTypeCode.BINARY_STRING, size := 3, data := bytes "foo" }, none] := by
  decide

/-- Claim C6 at the failing inputs: after `*1\r\n$-1\r\n` the null bulk string is
stored at index 0 but `tmpIndex` is still `0` (`count = 1`); after
`*2\r\n$-1\r\n$3\r\nfoo\r\n` slot 0 holds `foo`, which has overwritten the null
bulk string, slot 1 is a nil pointer and `tmpIndex = 1`. -/
theorem C6_null_bulk_keeps_tmpIndex :
    (write NewParser (bytes "*1\r\n$-1\r\n")).1 = Ret.nil ∧
    (write NewParser (bytes "*1\r\n$-1\r\n")).2.elements =
      [some { kind := resultTypeCode.BINARY_STRING, size := -1, data := [] }] ∧
    (write NewParser (bytes "*1\r\n$-1\r\n")).2.tmpIndex = 0 ∧
    (write NewParser (bytes "*1\r\n$-1\r\n")).2.count = 1 ∧
    (write NewParser (bytes "*2\r\n$-1\r\n$3\r\nfoo\r\n")).1 = Ret.nil ∧
    (write NewParser (bytes "*2\r\n$-1\r\n$3\r\nfoo\r\n")).2.elements =
      [some { kind := resultTypeCode.BINARY_STRING, size := 3, data := bytes "foo" }, none] ∧
    (write NewParser (bytes "*2\r\n$-1\r\n$3\r\nfoo\r\n")).2.tmpIndex = 1 := by
  decide

/-- Claim C7 at the failing input: `*2\r\n+a\r+b\r` in one chunk returns `nil`
with only `a` stored (`tmpIndex = 1`, slot 1 a nil pointer): the bytes `+b\r`
after the CR are dropped.  The two calls `write(*2\r\n+a\r)`, `write(+b\r)`
store `a` and `b`. -/
theorem C7_bytes_after_string_dropped :
    (write NewParser (bytes "*2\r\n+a\r+b\r")).1 = Ret.nil ∧
    (write NewParser (bytes "*2\r\n+a\r+b\r")).2.elements =
      [some { kind := resultTypeCode.SIMPLE_STRING, size := 1, data := bytes "a" }, none] ∧
    (write NewParser (bytes "*2\r\n+a\r+b\r")).2.tmpIndex = 1 ∧
    (writeAll NewParser [bytes "*2\r\n+a\r", bytes "+b\r"]).1 = [Ret.nil, Ret.nil] ∧
    (writeAll NewParser [bytes "*2\r\n+a\r", bytes "+b\r"]).2.elements =
      [some { kind := resultTypeCode.SIMPLE_STRING, size := 1, data := bytes "a" },
       some { kind := resultTypeCode.SIMPLE_STRING, size := 1, data := bytes "b" }] ∧
    (writeAll NewParser [bytes "*2\r\n+a\r", bytes "+b\r"]).2.tmpIndex = 2 := by
  decide

/-! ## Protocol errors -/

/-- Counterexample to claim C8: after `write(*1\r\n)` and a `write(x)` that
returns a protocol error, `eof` returns `nil` and sets the state to
`INITIALIZED`, and instead of `eof` a later `write($1\r\na\r\n)` returns
`nil`. -/
theorem C8_error_is_not_sticky :
    (write NewParser (bytes "*1\r\n")).1 = Ret.nil ∧
    (write (write NewParser (bytes "*1\r\n")).2 (bytes "x")).1 =
      Ret.protocolError "Unknown write error" ∧
    (eof (write (write NewParser (bytes "*1\r\n")).2 (bytes "x")).2).1 = Ret.nil ∧
    (eof (write (write NewParser (bytes "*1\r\n")).2 (bytes "x")).2).2.state =
      parseProcessingState.INITIALIZED ∧
    (write (write (write NewParser (bytes "*1\r\n")).2 (bytes "x")).2
      (bytes "$1\r\na\r\n")).1 = Ret.nil := by
  decide

/-- Claim C10. In state `ELEM_INITIALIZING` with `tmpIndex >= count`, `write` of
any non-empty chunk returns the protocol error `Unknown write error` and leaves
the parser (count, elements, tmpIndex and every other field) unchanged. -/
theorem C10_trailing_bytes_rejected (r : Parser) (buf : List Nat)
    (hs : r.state = parseProcessingState.ELEM_INITIALIZING) (hi : r.count ≤ r.tmpIndex)
    (hne : buf ≠ []) :
    write r buf = (Ret.protocolError "Unknown write error", r) ∧
    (write r buf).1.isProtocolError = true ∧
    (write r buf).2.count = r.count ∧ (write r buf).2.elements = r.elements ∧
    (write r buf).2.tmpIndex = r.tmpIndex := by
  cases buf with
  | nil => exact absurd rfl hne
  | cons b rest =>
    rw [write_elem_state r b rest hs, if_pos hi]
    simp [protocolError, Ret.isProtocolError]

/-- Witness of C10: after `write(*1\r\n$1\r\na\r\n)` the chunk `x` is rejected, and
after `write(*0\r\n)` so is the chunk `x`. -/
theorem C10_trailing_bytes_rejected_witness :
    (write NewParser (bytes "*1\r\n$1\r\na\r\n")).1 = Ret.nil ∧
    write (write NewParser (bytes "*1\r\n$1\r\na\r\n")).2 (bytes "x") =
      (Ret.protocolError "Unknown write error",
        (write NewParser (bytes "*1\r\n$1\r\na\r\n")).2) ∧
    write (write NewParser (bytes "*0\r\n")).2 (bytes "x") =
      (Ret.protocolError "Unknown write error", (write NewParser (bytes "*0\r\n")).2) ∧
    (write NewParser (bytes "*0\r\nx")).1 = Ret.protocolError "Unknown write error" :=
  ⟨by decide,
    (C10_trailing_bytes_rejected (write NewParser (bytes "*1\r\n$1\r\na\r\n")).2 (bytes "x")
      (by decide) (by decide) (by decide)).1,
    (C10_trailing_bytes_rejected (write NewParser (bytes "*0\r\n")).2 (bytes "x")
      (by decide) (by decide) (by decide)).1,
    by decide⟩

theorem withInteger_digits (k : Int → List Nat → Parser → Ret × Parser) (r : Parser)
    (ds tail : List Nat) (hds : ∀ d ∈ ds, 48 ≤ d ∧ d ≤ 57) (hne : ds ≠ []) :
    withInteger k r (ds ++ tail) =
      withInteger k { r with tmpNumber := some (appendSlice r.tmpNumber ds) } tail := by
  induction ds generalizing r with
  | nil => exact absurd rfl hne
  | cons d ds ih =>
    rw [List.cons_append, withInteger_acc k r d (ds ++ tail) (Or.inr (hds d (by simp)))]
    by_cases hnil : ds = []
    · subst hnil
      rfl
    · rw [ih _ (fun x hx => hds x (by simp [hx])) hnil]
      simp only [appendSlice_some_append]

theorem withInteger_header (k : Int → List Nat → Parser → Ret × Parser) (r : Parser)
    (h tail : List Nat) (hh : countHeader h) (hne : h ≠ []) (ht : r.tmpNumber = none) :
    withInteger k r (h ++ tail) = withInteger k { r with tmpNumber := some h } tail := by
  cases h with
  | nil => exact absurd rfl hne
  | cons b t =>
    obtain ⟨hb, hds⟩ := hh
    have hacc : accepts r b := by
      rcases hb with hb | hb
      · exact Or.inl ⟨ht, hb⟩
      · exact Or.inr hb
    rw [List.cons_append, withInteger_acc k r b (t ++ tail) hacc, ht]
    by_cases hnil : t = []
    · subst hnil
      rfl
    · rw [withInteger_digits k _ t tail hds hnil]
      rfl

theorem write_count_any (r : Parser) (buf : List Nat)
    (hs : r.state = parseProcessingState.ELEM_COUNT_INITIALIZING) :
    write r buf = withInteger (countCont write) r buf := by
  cases buf with
  | nil => rw [write_nil, withInteger_nil]
  | cons b rest => rw [write_count_state r b rest hs, writeElementsCount_eq]

theorem run_countHeader (r : Parser) (h : List Nat) (hs : isIntegerState r.state)
    (ht : r.tmpNumber = none) (hh : countHeader h) (hne : h ≠ []) :
    Run r h { r with tmpNumber := some h } := by
  cases h with
  | nil => exact absurd rfl hne
  | cons b t =>
    obtain ⟨hb, hds⟩ := hh
    have hacc : accepts r b := by
      rcases hb with hb | hb
      · exact Or.inl ⟨ht, hb⟩
      · exact Or.inr hb
    have hns : ¬ startsString r b := by
      rcases hs with hs | hs <;>
        exact not_startsString_of_state r b (by rw [hs]; simp) (by rw [hs]; simp)
    have hw := write_accepted r b hs hacc
    rw [ht] at hw
    by_cases hnil : t = []
    · subst hnil
      exact Run.cons hns hw (Run.nil _)
    · exact Run.cons hns hw (run_digits _ t hs hds hnil)

/-- Claim C9. On a fresh parser, for every input `*` ++ `h` ++ `x` ++ `rest`
where `h` is a (possibly empty) run of digits with an optional `-` in first
position and `x` is neither a digit, nor CR, nor a `-` in first position,
`write` returns the protocol error `Invalid charactor in number`.  When `*` ++ `h`
and `x` ++ `rest` arrive in two chunks, the first `write` returns `nil` and the
second, which delivers `x`, returns that protocol error; the same holds for
every split `cs` of `*` ++ `h` into chunks: each of these calls returns `nil`
and the call that delivers `x` returns the protocol error. -/
theorem C9_malformed_count_rejected (h rest : List Nat) (x : Nat)
    (hh : countHeader h) (hx : offending h x) :
    (write NewParser (42 :: (h ++ x :: rest))).1 =
      Ret.protocolError "Invalid charactor in number" ∧
    (write NewParser (42 :: (h ++ x :: rest))).1.isProtocolError = true ∧
    (write NewParser (42 :: h)).1 = Ret.nil ∧
    (write (write NewParser (42 :: h)).2 (x :: rest)).1 =
      Ret.protocolError "Invalid charactor in number" ∧
    (∀ cs : List (List Nat), cs.flatten = 42 :: h →
      (∀ e ∈ (writeAll NewParser cs).1, e = Ret.nil) ∧
      (write (writeAll NewParser cs).2 (x :: rest)).1 =
        Ret.protocolError "Invalid charactor in number") := by
  obtain ⟨hx1, hx2, hx3⟩ := hx
  have hsplit : ∀ (r1 : Parser), Run NewParser (42 :: h) r1 →
      write r1 (x :: rest) = (Ret.protocolError "Invalid charactor in number", r1) →
      ∀ cs : List (List Nat), cs.flatten = 42 :: h →
        (∀ e ∈ (writeAll NewParser cs).1, e = Ret.nil) ∧
        (write (writeAll NewParser cs).2 (x :: rest)).1 =
          Ret.protocolError "Invalid charactor in number" := by
    intro r1 hrun hw cs hcs
    have h2 := writeAll_of_cleanRun NewParser cs (by rw [hcs]; exact hrun.1)
    rw [hcs, hrun.2] at h2
    rw [h2, hw]
    exact ⟨fun e he => List.eq_of_mem_replicate he, rfl⟩
  have hstar0 : ¬ startsString NewParser 42 := by unfold startsString; omega
  have hstar : ∀ l, write NewParser (42 :: l) =
      withInteger (countCont write)
        { NewParser with state := parseProcessingState.ELEM_COUNT_INITIALIZING } l := by
    intro l
    rw [write_uninit_state _ _ _ rfl, if_pos rfl, write_count_any _ _ rfl]
  have hstop : ∀ (r : Parser), ¬ accepts r x →
      withInteger (countCont write) r (x :: rest) =
        (Ret.protocolError "Invalid charactor in number", r) := by
    intro r hr
    rw [withInteger_stop _ r x rest hr, if_neg hx2]
    rfl
  by_cases hnil : h = []
  · subst hnil
    have hna : ¬ accepts
        { NewParser with state := parseProcessingState.ELEM_COUNT_INITIALIZING } x := by
      unfold accepts
      rintro (⟨_, h45⟩ | hd)
      · exact hx3 ⟨h45, rfl⟩
      · exact hx1 hd
    have h1 : write NewParser (42 :: ([] ++ x :: rest)) = _ :=
      (hstar (x :: rest)).trans (hstop _ hna)
    have h2 : write NewParser [42] = _ := (hstar []).trans (withInteger_nil _ _)
    refine ⟨by rw [h1], by rw [h1]; rfl, by rw [h2], ?_, ?_⟩
    · rw [h2, write_count_any _ _ rfl, hstop _ hna]
    · refine hsplit _ (Run.cons hstar0 (write_star _ rfl) (Run.nil _)) ?_
      rw [write_count_any _ _ rfl, hstop _ hna]
  · have hna : ¬ accepts
        { NewParser with state := parseProcessingState.ELEM_COUNT_INITIALIZING,
                         tmpNumber := some h } x := by
      unfold accepts
      rintro (⟨hn, _⟩ | hd)
      · exact absurd hn (by simp)
      · exact hx1 hd
    have h1 : write NewParser (42 :: (h ++ x :: rest)) = _ :=
      ((hstar (h ++ x :: rest)).trans
        (withInteger_header _ _ h (x :: rest) hh hnil rfl)).trans (hstop _ hna)
    have h2 : write NewParser (42 :: h) = (Ret.nil,
        { NewParser with state := parseProcessingState.ELEM_COUNT_INITIALIZING,
                         tmpNumber := some h }) := by
      have h3 := (hstar (h ++ [])).trans
        ((withInteger_header _ _ h [] hh hnil rfl).trans (withInteger_nil _ _))
      rw [List.append_nil] at h3
      exact h3
    refine ⟨by rw [h1], by rw [h1]; rfl, by rw [h2], ?_, ?_⟩
    · rw [h2, write_count_any _ _ rfl, hstop _ hna]
    · refine hsplit _ (Run.cons hstar0 (write_star _ rfl)
        (run_countHeader _ h (Or.inl rfl) rfl hh hnil)) ?_
      rw [write_count_any _ _ rfl, hstop _ hna]

/-- Witness of C9: `*2x\r\n`, `*1-2\r\n` and `*--1\r\n` are rejected. -/
theorem C9_malformed_count_rejected_witness :
    (countHeader (bytes "2") ∧ offending (bytes "2") 120 ∧
      (write NewParser (bytes "*2x\r\n")).1 = Ret.protocolError "Invalid charactor in number") ∧
    (countHeader (bytes "1") ∧ offending (bytes "1") 45 ∧
      (write NewParser (bytes "*1-2\r\n")).1 = Ret.protocolError "Invalid charactor in number") ∧
    (countHeader (bytes "-") ∧ offending (bytes "-") 45 ∧
      (write NewParser (bytes "*--1\r\n")).1 = Ret.protocolError "Invalid charactor in number") :=
  ⟨⟨by decide, by decide,
      (C9_malformed_count_rejected (bytes "2") (bytes "\r\n") 120 (by decide) (by decide)).1⟩,
    ⟨by decide, by decide,
      (C9_malformed_count_rejected (bytes "1") (bytes "2\r\n") 45 (by decide) (by decide)).1⟩,
    ⟨by decide, by decide,
      (C9_malformed_count_rejected (bytes "-") (bytes "1\r\n") 45 (by decide) (by decide)).1⟩⟩

/-! ## Unknown markers, end of stream and the terminator matcher -/

/-- Claim C11. In state `ELEM_INITIALIZING` with `tmpIndex < count`, `write` of a
chunk whose first byte is not `$`, `+` or `-` returns the protocol error
`Unknown write error` and leaves the parser unchanged (no element stored,
`tmpIndex` not advanced).  On a fresh parser, a chunk whose first byte is
neither `*` nor one of the three markers returns the same protocol error; the
parser then has `count = 1`, one empty slot and `tmpIndex = 0`. -/
theorem C11_unknown_marker_rejected (r : Parser) (b : Nat) (rest : List Nat)
    (h36 : b ≠ 36) (h43 : b ≠ 43) (h45 : b ≠ 45) :
    (r.state = parseProcessingState.ELEM_INITIALIZING → r.tmpIndex < r.count →
      write r (b :: rest) = (Ret.protocolError "Unknown write error", r)) ∧
    (b ≠ 42 →
      (write NewParser (b :: rest)).1 = Ret.protocolError "Unknown write error" ∧
      (write NewParser (b :: rest)).2.elements = [none] ∧
      (write NewParser (b :: rest)).2.tmpIndex = 0 ∧
      (write NewParser (b :: rest)).2.count = 1) := by
  have key : ∀ r : Parser, r.state = parseProcessingState.ELEM_INITIALIZING →
      r.tmpIndex < r.count →
      write r (b :: rest) = (Ret.protocolError "Unknown write error", r) := by
    intro r hs hi
    rw [write_elem_state r b rest hs, if_neg (not_le.mpr hi), if_neg h36, if_neg h43,
      if_neg h45]
    rfl
  refine ⟨key r, fun h42 => ?_⟩
  rw [write_uninit_state _ _ _ rfl, if_neg h42, key _ rfl (by decide)]
  exact ⟨rfl, rfl, rfl, rfl⟩

/-- Witness of C11: after `*1\r\n` the chunk `x` is rejected and nothing is
stored; on a fresh parser the chunk `x` is rejected. -/
theorem C11_unknown_marker_rejected_witness :
    write (write NewParser (bytes "*1\r\n")).2 (bytes "x") =
      (Ret.protocolError "Unknown write error", (write NewParser (bytes "*1\r\n")).2) ∧
    (write NewParser (bytes "x")).1 = Ret.protocolError "Unknown write error" :=
  ⟨(C11_unknown_marker_rejected (write NewParser (bytes "*1\r\n")).2 120 []
      (by decide) (by decide) (by decide)).1 (by decide) (by decide),
    ((C11_unknown_marker_rejected NewParser 120 [] (by decide) (by decide)
      (by decide)).2 (by decide)).1⟩

/-- Claim C12. In every state other than `ELEM_INITIALIZING`, `eof` returns the
protocol error `EOF Error` and leaves the parser, its state included,
unchanged: it does not set the state to `INITIALIZED`. -/
theorem C12_eof_mid_message (r : Parser)
    (hs : r.state ≠ parseProcessingState.ELEM_INITIALIZING) :
    eof r = (Ret.protocolError "EOF Error", r) ∧ (eof r).1.isProtocolError = true ∧
    (eof r).2.state = r.state := by
  unfold eof
  rw [if_pos hs]
  exact ⟨rfl, rfl, rfl⟩

/-- Witness of C12: `eof` on an empty stream, after `*1\r\n$5\r\nhel` and after
`*1\r\n$5\r\nhello\r` is a protocol error and the state stays what it was. -/
theorem C12_eof_mid_message_witness :
    (eof NewParser).1 = Ret.protocolError "EOF Error" ∧
    (write NewParser (bytes "*1\r\n$5\r\nhel")).1 = Ret.nil ∧
    (eof (write NewParser (bytes "*1\r\n$5\r\nhel")).2).1 = Ret.protocolError "EOF Error" ∧
    (eof (write NewParser (bytes "*1\r\n$5\r\nhel")).2).2.state =
      parseProcessingState.ELEM_STRING_INITIALIZING ∧
    (write NewParser (bytes "*1\r\n$5\r\nhello\r")).1 = Ret.nil ∧
    (eof (write NewParser (bytes "*1\r\n$5\r\nhello\r")).2).1 =
      Ret.protocolError "EOF Error" ∧
    (eof (write NewParser (bytes "*1\r\n$5\r\nhello\r")).2).2.state =
      parseProcessingState.ELEM_STRING_INITIALIZED :=
  ⟨congrArg Prod.fst (C12_eof_mid_message NewParser (by decide)).1,
    by decide,
    congrArg Prod.fst
      (C12_eof_mid_message (write NewParser (bytes "*1\r\n$5\r\nhel")).2 (by decide)).1,
    by decide, by decide,
    congrArg Prod.fst
      (C12_eof_mid_message (write NewParser (bytes "*1\r\n$5\r\nhello\r")).2 (by decide)).1,
    by decide⟩

theorem writeCRLF_cr_lf (w : Parser → List Nat → Ret × Parser) (r : Parser) (rest : List Nat)
    (hc : r.tmpCrlfState = 0) :
    writeCRLF w r (13 :: 10 :: rest) = w (afterCRLF r) rest := by
  simp [writeCRLF, hc, afterCRLF]

theorem writeCRLF_lf (w : Parser → List Nat → Ret × Parser) (r : Parser) (rest : List Nat)
    (hc : r.tmpCrlfState = 1) :
    writeCRLF w r (10 :: rest) = w (afterCRLF r) rest := by
  simp [writeCRLF, hc, afterCRLF]

theorem writeCRLF_cr_last (w : Parser → List Nat → Ret × Parser) (r : Parser)
    (hc : r.tmpCrlfState = 0) :
    writeCRLF w r [13] = (Ret.nil, { r with tmpCrlfState := 1 }) := by
  simp [writeCRLF, hc]

theorem writeCRLF_unexpected (w : Parser → List Nat → Ret × Parser) (r : Parser)
    (buf : List Nat) (h : unexpectedByte r.tmpCrlfState buf) :
    (writeCRLF w r buf).1 = Ret.protocolError "Invalid charactor for new line" := by
  match buf, h with
  | [b], h =>
    rcases h with ⟨h0, hb⟩ | ⟨h1, hb⟩
    · simp [writeCRLF, h0, hb, protocolError]
    · simp [writeCRLF, h1, hb, protocolError]
  | b :: c :: rest, h =>
    rcases h with ⟨h0, hb | hc⟩ | ⟨h1, hb⟩
    · simp [writeCRLF, h0, hb, protocolError]
    · by_cases hb : b = 13
      · simp [writeCRLF, h0, hb, hc, protocolError]
      · simp [writeCRLF, h0, hb, protocolError]
    · simp [writeCRLF, h1, hb, protocolError]

theorem expected_cases (crlf : Int) (b : Nat) (rest : List Nat)
    (hc : crlf = 0 ∨ crlf = 1) (h : ¬ unexpectedByte crlf (b :: rest)) :
    (crlf = 0 ∧ b = 13 ∧ rest = []) ∨
    (crlf = 0 ∧ b = 13 ∧ ∃ rest1, rest = 10 :: rest1) ∨
    (crlf = 1 ∧ b = 10) := by
  cases rest with
  | nil =>
    simp only [unexpectedByte] at h
    rcases hc with hc | hc
    · left
      refine ⟨hc, ?_, rfl⟩
      by_contra hb
      exact h (Or.inl ⟨hc, hb⟩)
    · right; right
      refine ⟨hc, ?_⟩
      by_contra hb
      exact h (Or.inr ⟨hc, hb⟩)
  | cons c rest1 =>
    simp only [unexpectedByte] at h
    rcases hc with hc | hc
    · right; left
      have hb : b = 13 := by
        by_contra hb
        exact h (Or.inl ⟨hc, Or.inl hb⟩)
      have hc10 : c = 10 := by
        by_contra hc10
        exact h (Or.inl ⟨hc, Or.inr hc10⟩)
      exact ⟨hc, hb, rest1, by rw [hc10]⟩
    · right; right
      refine ⟨hc, ?_⟩
      by_contra hb
      exact h (Or.inr ⟨hc, hb⟩)

/-- Claim C13. In a terminator state, with `tmpCrlfState` 0 or 1, `write` of a
non-empty chunk is the matcher `writeCRLF`.  The matcher itself returns the
protocol error `Invalid charactor for new line` (whatever the continuation
`w` of the decoding does) if and only if a byte is not the expected one: not
CR while awaiting CR, not LF while awaiting LF, the CR having arrived in this
chunk or an earlier one; in that case `write` returns this protocol error.
Otherwise either the chunk is a lone CR, `write` returns `nil` and
`tmpCrlfState = 1`, or CR LF (or LF, the CR having arrived earlier) has been
matched and `write` is `write` of the bytes after the LF on the parser with
`tmpCrlfState = 0`, `state = nextState`, `nextState = 0`. -/
theorem C13_terminator_matcher (r : Parser) (b : Nat) (rest : List Nat)
    (hs : isCRLFState r.state) (hc : r.tmpCrlfState = 0 ∨ r.tmpCrlfState = 1) :
    write r (b :: rest) = writeCRLF write r (b :: rest) ∧
    ((∀ w : Parser → List Nat → Ret × Parser,
        (writeCRLF w r (b :: rest)).1 = Ret.protocolError "Invalid charactor for new line") ↔
      unexpectedByte r.tmpCrlfState (b :: rest)) ∧
    (unexpectedByte r.tmpCrlfState (b :: rest) →
      (write r (b :: rest)).1 = Ret.protocolError "Invalid charactor for new line") ∧
    (¬ unexpectedByte r.tmpCrlfState (b :: rest) →
      (r.tmpCrlfState = 0 ∧ b = 13 ∧ rest = [] ∧
        write r (b :: rest) = (Ret.nil, { r with tmpCrlfState := 1 })) ∨
      (r.tmpCrlfState = 0 ∧ b = 13 ∧ ∃ rest1, rest = 10 :: rest1 ∧
        write r (b :: rest) = write (afterCRLF r) rest1) ∨
      (r.tmpCrlfState = 1 ∧ b = 10 ∧ write r (b :: rest) = write (afterCRLF r) rest)) ∧
    (afterCRLF r).tmpCrlfState = 0 ∧ (afterCRLF r).state = r.nextState ∧
    (afterCRLF r).nextState = parseProcessingState.UNINITIALIZED ∧
    (afterCRLF r).count = r.count ∧ (afterCRLF r).elements = r.elements ∧
    (afterCRLF r).tmpIndex = r.tmpIndex := by
  have hw := write_crlf_state r b rest hs
  refine ⟨hw, ⟨?_, fun h w => writeCRLF_unexpected w r _ h⟩, ?_, ?_, rfl, rfl, rfl, rfl, rfl,
    rfl⟩
  · intro hall
    by_contra hne
    have h0 := hall (fun r1 _ => (Ret.nil, r1))
    rcases expected_cases _ b rest hc hne with ⟨h1, h2, h3⟩ | ⟨h1, h2, rest1, h3⟩ | ⟨h1, h2⟩
    · subst h2 h3
      rw [writeCRLF_cr_last _ r h1] at h0
      exact absurd h0 (by simp)
    · subst h2 h3
      rw [writeCRLF_cr_lf _ r rest1 h1] at h0
      exact absurd h0 (by simp)
    · subst h2
      rw [writeCRLF_lf _ r rest h1] at h0
      exact absurd h0 (by simp)
  · intro h
    rw [hw]
    exact writeCRLF_unexpected write r _ h
  · intro hne
    rcases expected_cases _ b rest hc hne with ⟨h1, h2, h3⟩ | ⟨h1, h2, rest1, h3⟩ | ⟨h1, h2⟩
    · subst h2 h3
      exact Or.inl ⟨h1, rfl, rfl, by rw [hw, writeCRLF_cr_last _ r h1]⟩
    · subst h2 h3
      exact Or.inr (Or.inl ⟨h1, rfl, rest1, rfl, by rw [hw, writeCRLF_cr_lf _ r rest1 h1]⟩)
    · subst h2
      exact Or.inr (Or.inr ⟨h1, rfl, by rw [hw, writeCRLF_lf _ r rest h1]⟩)

/-- Witness of C13 on the parser reached after `*1` and a CR in an earlier
chunk: the chunk `x` is rejected by the matcher, the chunk LF `$` is accepted
and decoding continues with `$`. -/
theorem C13_terminator_matcher_witness :
    isCRLFState (write NewParser (bytes "*1\r")).2.state ∧
    (write NewParser (bytes "*1\r")).2.tmpCrlfState = 1 ∧
    unexpectedByte 1 (bytes "x") ∧
    (write (write NewParser (bytes "*1\r")).2 (bytes "x")).1 =
      Ret.protocolError "Invalid charactor for new line" ∧
    write (write NewParser (bytes "*1\r")).2 (bytes "\n$") =
      writeCRLF write (write NewParser (bytes "*1\r")).2 (bytes "\n$") :=
  ⟨by decide, by decide, by decide,
    (C13_terminator_matcher (write NewParser (bytes "*1\r")).2 120 [] (by decide)
      (by decide)).2.2.1 (by decide),
    (C13_terminator_matcher (write NewParser (bytes "*1\r")).2 10 [36] (by decide)
      (by decide)).1⟩

/-! ## More inputs where the code departs from the claims -/

/-- Claim C15 at the failing input: `write(+O)` on a fresh parser returns the
non-nil sentinel error `parseContinue`, not `nil` (likewise `-O`, and `+O`
after the header `*1\r\n`).  At the other tokens a chunk that ends in the
middle returns `nil`: count digits (`*1`), bulk-size digits (`*1\r\n$5`), a
partial payload (`*1\r\n$5\r\nhel`), between CR and LF (`*1\r`). -/
theorem C15_string_needing_data_returns_error :
    (write NewParser (bytes "+O")).1 = Ret.parseContinue ∧
    (write NewParser (bytes "+O")).1 ≠ Ret.nil ∧
    (write NewParser (bytes "-O")).1 = Ret.parseContinue ∧
    (write (write NewParser (bytes "*1\r\n")).2 (bytes "+O")).1 = Ret.parseContinue ∧
    (write NewParser (bytes "+O")).2.tmpString = some (bytes "O") ∧
    (write NewParser (bytes "+O")).2.state = parseProcessingState.ELEM_INITIALIZING ∧
    (write NewParser (bytes "*1")).1 = Ret.nil ∧
    (write NewParser (bytes "*1\r\n$5")).1 = Ret.nil ∧
    (write NewParser (bytes "*1\r\n$5\r\nhel")).1 = Ret.nil ∧
    (write NewParser (bytes "*1\r")).1 = Ret.nil := by
  decide

/-- Claim C16 at the failing input: on the stream `*1\r\n$5\r\nhel` followed by
`io.EOF` the `write` returns `nil`, `eof` returns the protocol error
`EOF Error`, and `Parse` returns `nil`. -/
theorem C16_Parse_drops_eof_error :
    (write NewParser (bytes "*1\r\n$5\r\nhel")).1 = Ret.nil ∧
    (eof (write NewParser (bytes "*1\r\n$5\r\nhel")).2).1 = Ret.protocolError "EOF Error" ∧
    (Parse NewParser [bytes "*1\r\n$5\r\nhel"]).1 = Ret.nil ∧
    (Parse NewParser []).1 = Ret.nil ∧
    (eof NewParser).1 = Ret.protocolError "EOF Error" := by
  decide

/-- Claim C19 at the failing inputs: `write(*1\r\n$-2\r\nx)` and `write(*-1\r\n)`
on a fresh parser panic (a slice expression with a negative bound in
`writeBinaryString`, a `make` with negative length in `writeElementsCount`);
so does `write(x)` after `write(*1\r\n$-2\r\n)` has returned `nil`. -/
theorem C19_write_panics_on_negative_sizes :
    (write NewParser (bytes "*1\r\n$-2\r\nx")).1 = Ret.panic ∧
    (write NewParser (bytes "*-1\r\n")).1 = Ret.panic ∧
    (write NewParser (bytes "*1\r\n$-2\r\n")).1 = Ret.nil ∧
    (write (write NewParser (bytes "*1\r\n$-2\r\n")).2 (bytes "x")).1 = Ret.panic ∧
    (writeAll NewParser [bytes "*-", bytes "1\r"]).1 = [Ret.nil, Ret.panic] := by
  decide

/-! ## The integer scanner -/

theorem parseDigits_value (a : Nat) (ds : List Nat) (h : allDigits ds) :
    parseDigits a ds = some (a * 10 ^ ds.length + digitsValue ds) := by
  induction ds generalizing a with
  | nil => simp [parseDigits, digitsValue]
  | cons d ds ih =>
    have hd := h d (by simp)
    have hds : allDigits ds := fun x hx => h x (by simp [hx])
    simp only [parseDigits, hd, and_self, if_true, digitsValue, List.length_cons]
    rw [ih _ hds]
    congr 1
    ring

theorem atoi_eq_decimalValue (t : List Nat) (ht : countHeader t) :
    atoi t = (decimalValue t).bind (fun n => if inIntRange n then some n else none) := by
  cases t with
  | nil => rfl
  | cons b ds =>
    obtain ⟨hb, hds⟩ := ht
    have hds1 : allDigits ds := hds
    by_cases h45 : b = 45
    · subst h45
      cases ds with
      | nil => rfl
      | cons c cs =>
        have hv := parseDigits_value 0 (c :: cs) hds1
        simp only [zero_mul, zero_add] at hv
        have hne : (c :: cs) ≠ [] := by simp
        simp only [atoi, hv, decimalValue, if_true, hne, hds1, ne_eq, not_false_eq_true,
          and_self, Option.some_bind, inIntRange, maxInt]
        by_cases hle : digitsValue (c :: cs) ≤ 2 ^ 63 - 1 + 1
        · rw [if_pos hle, if_pos (by constructor <;> omega)]
        · rw [if_neg hle, if_neg (by intro h; omega)]
    · have hb1 : 48 ≤ b ∧ b ≤ 57 := by
        rcases hb with hb | hb
        · exact absurd hb h45
        · exact hb
      have hall : allDigits (b :: ds) := by
        intro x hx
        rcases List.mem_cons.mp hx with hx | hx
        · rw [hx]; exact hb1
        · exact hds x hx
      have hv := parseDigits_value 0 (b :: ds) hall
      simp only [zero_mul, zero_add] at hv
      rw [atoi_digit_head b ds hb1, hv]
      simp only [decimalValue, h45, if_false, hall, if_true, Option.some_bind, inIntRange,
        maxInt]
      by_cases hle : digitsValue (b :: ds) ≤ 2 ^ 63 - 1
      · rw [if_pos hle, if_pos (by constructor <;> omega)]
      · rw [if_neg hle, if_neg (by intro h; omega)]

theorem readInteger_digits (r : Parser) (ds tail : List Nat) (hds : allDigits ds)
    (hne : ds ≠ []) :
    readInteger r (ds ++ tail) =
      readInteger { r with tmpNumber := some (appendSlice r.tmpNumber ds) } tail := by
  induction ds generalizing r with
  | nil => exact absurd rfl hne
  | cons d ds ih =>
    rw [List.cons_append, readInteger_acc r d (ds ++ tail) (Or.inr (hds d (by simp)))]
    by_cases hnil : ds = []
    · subst hnil
      rfl
    · rw [ih _ (fun x hx => hds x (by simp [hx])) hnil]
      simp only [appendSlice_some_append]

theorem readInteger_header (r : Parser) (h tail : List Nat) (hh : countHeader h)
    (hne : h ≠ []) (ht : r.tmpNumber = none) :
    readInteger r (h ++ tail) = readInteger { r with tmpNumber := some h } tail := by
  cases h with
  | nil => exact absurd rfl hne
  | cons b t =>
    obtain ⟨hb, hds⟩ := hh
    have hacc : accepts r b := by
      rcases hb with hb | hb
      · exact Or.inl ⟨ht, hb⟩
      · exact Or.inr hb
    rw [List.cons_append, readInteger_acc r b (t ++ tail) hacc, ht]
    by_cases hnil : t = []
    · subst hnil
      rfl
    · rw [readInteger_digits _ t tail hds hnil]
      rfl

theorem countHeader_append_digits (a ds : List Nat) (ha : a ≠ [])
    (h : countHeader (a ++ ds)) : allDigits ds := by
  cases a with
  | nil => exact absurd rfl ha
  | cons b t =>
    intro x hx
    exact h.2 x (by simp [hx])

/-- The result of `readInteger` on a chunk whose bytes before the first CR are
all accumulated: `strconv.Atoi` decides on the accumulated text. -/
theorem readInteger_at_cr (r : Parser) (ds rest : List Nat)
    (hacc : r.tmpNumber = none ∨ ∃ a, r.tmpNumber = some a ∧ a ≠ [])
    (ht : countHeader (sliceBytes r.tmpNumber ++ ds)) :
    readInteger r (ds ++ 13 :: rest) =
      match atoi (sliceBytes r.tmpNumber ++ ds) with
      | some n => ((n, 13 :: rest, Ret.nil), { r with tmpNumber := none })
      | none =>
        ((0, [], Ret.protocolError "Invalid charactor in number"),
          { r with tmpNumber := if ds = [] then r.tmpNumber
                                else some (sliceBytes r.tmpNumber ++ ds) }) := by
  by_cases hnil : ds = []
  · subst hnil
    simp only [List.nil_append, List.append_nil, if_true]
    rw [readInteger_stop r 13 rest (not_accepts_cr r), if_pos rfl]
    cases atoi (sliceBytes r.tmpNumber) <;> rfl
  · rcases hacc with hn | ⟨a, ha, hane⟩
    · rw [hn] at ht ⊢
      simp only [sliceBytes, List.nil_append] at ht ⊢
      rw [readInteger_header r ds _ ht hnil hn,
        readInteger_stop _ 13 rest (not_accepts_cr _), if_pos rfl, if_neg hnil]
      simp only [sliceBytes]
      cases atoi ds <;> rfl
    · rw [ha] at ht ⊢
      simp only [sliceBytes] at ht ⊢
      rw [readInteger_digits r ds _ (countHeader_append_digits a ds hane ht) hnil,
        readInteger_stop _ 13 rest (not_accepts_cr _), if_pos rfl, if_neg hnil, ha]
      simp only [sliceBytes, appendSlice]
      cases atoi (a ++ ds) <;> rfl

theorem countHeader_of_decimalValue (d : List Nat) (n : Int) (h : decimalValue d = some n) :
    countHeader d ∧ d ≠ [] := by
  cases d with
  | nil => simp [decimalValue] at h
  | cons b ds =>
    refine ⟨?_, by simp⟩
    simp only [decimalValue] at h
    by_cases h45 : b = 45
    · rw [if_pos h45] at h
      by_cases hc : ds ≠ [] ∧ allDigits ds
      · exact ⟨Or.inl h45, hc.2⟩
      · rw [if_neg hc] at h
        exact absurd h (by simp)
    · rw [if_neg h45] at h
      by_cases hc : allDigits (b :: ds)
      · exact ⟨Or.inr (hc b (by simp)), fun x hx => hc x (by simp [hx])⟩
      · rw [if_neg hc] at h
        exact absurd h (by simp)

/-- Claim C14. For every integer `n` in the range of `int` and every decimal
text `d` of `n` (an optional leading `-` followed by at least one digit), and
every byte string `rest`, `readInteger(d ++ CR ++ rest)` called with
`tmpNumber = nil` returns `n` with a nil error, returns the remaining buffer
CR ++ `rest` (the CR is not consumed) and leaves `tmpNumber = nil`, no other
field of the parser being touched. -/
theorem C14_readInteger_value (r : Parser) (d rest : List Nat) (n : Int)
    (hr : r.tmpNumber = none) (hd : decimalValue d = some n) (hn : inIntRange n) :
    readInteger r (d ++ 13 :: rest) = ((n, 13 :: rest, Ret.nil), r) ∧
    (readInteger r (d ++ 13 :: rest)).2.tmpNumber = none := by
  obtain ⟨hh, _⟩ := countHeader_of_decimalValue d n hd
  have h1 := readInteger_at_cr r d rest (Or.inl hr)
    (by rw [hr]; simpa [sliceBytes] using hh)
  rw [hr] at h1
  simp only [sliceBytes, List.nil_append] at h1
  rw [atoi_eq_decimalValue d hh, hd] at h1
  simp only [Option.some_bind, if_pos hn] at h1
  have hr2 : ({ r with tmpNumber := none } : Parser) = r := by
    cases r
    simp only at hr
    simp [hr]
  rw [hr2] at h1
  rw [h1]
  exact ⟨rfl, hr⟩

/-- Witness of C14: `-12` then CR LF is read as `-12` and the buffer CR LF is
returned. -/
theorem C14_readInteger_value_witness :
    NewParser.tmpNumber = none ∧ decimalValue (bytes "-12") = some (-12) ∧
    inIntRange (-12) ∧
    readInteger NewParser (bytes "-12\r\n") = ((-12, bytes "\r\n", Ret.nil), NewParser) :=
  ⟨rfl, by decide, by decide,
    (C14_readInteger_value NewParser (bytes "-12") (bytes "\n") (-12) rfl (by decide)
      (by decide)).1⟩

/-- Claim C20. When `readInteger` meets a CR (every byte of the chunk before
it has been accumulated), it succeeds if and only if the accumulated text,
the bytes kept in `tmpNumber` followed by the bytes of this chunk before the
CR, is an optional `-` followed by at least one digit whose value fits in
`int`; it then returns that value.  Otherwise it returns the protocol error
`Invalid charactor in number`, the value 0 and no buffer. -/
theorem C20_integer_text_checked (r : Parser) (ds rest : List Nat)
    (hacc : r.tmpNumber = none ∨ ∃ a, r.tmpNumber = some a ∧ a ≠ [])
    (ht : countHeader (sliceBytes r.tmpNumber ++ ds)) :
    ((readInteger r (ds ++ 13 :: rest)).1.2.2 = Ret.nil ↔
      ∃ n, decimalValue (sliceBytes r.tmpNumber ++ ds) = some n ∧ inIntRange n) ∧
    (∀ n, decimalValue (sliceBytes r.tmpNumber ++ ds) = some n → inIntRange n →
      (readInteger r (ds ++ 13 :: rest)).1 = (n, 13 :: rest, Ret.nil)) ∧
    ((readInteger r (ds ++ 13 :: rest)).1.2.2 ≠ Ret.nil →
      (readInteger r (ds ++ 13 :: rest)).1 =
        (0, [], Ret.protocolError "Invalid charactor in number")) := by
  have h1 := readInteger_at_cr r ds rest hacc ht
  rw [atoi_eq_decimalValue _ ht] at h1
  cases hd : decimalValue (sliceBytes r.tmpNumber ++ ds) with
  | none =>
    rw [hd] at h1
    simp only [Option.none_bind] at h1
    rw [h1]
    simp
  | some n =>
    rw [hd] at h1
    simp only [Option.some_bind] at h1
    by_cases hn : inIntRange n
    · rw [if_pos hn] at h1
      rw [h1]
      simp [hn]
    · rw [if_neg hn] at h1
      rw [h1]
      simp [hn]

/-- Witness of C20: with an empty accumulator a CR alone, a lone `-` and the
out-of-range text `9223372036854775808` are rejected, `9223372036854775807` is
read; `*\r\n`, `$\r\n` and `$-\r\n` make `write` return the protocol error. -/
theorem C20_integer_text_checked_witness :
    (readInteger NewParser (bytes "\r\n")).1 =
      (0, [], Ret.protocolError "Invalid charactor in number") ∧
    (readInteger NewParser (bytes "-\r\n")).1 =
      (0, [], Ret.protocolError "Invalid charactor in number") ∧
    (readInteger NewParser (bytes "9223372036854775808\r\n")).1 =
      (0, [], Ret.protocolError "Invalid charactor in number") ∧
    (readInteger NewParser (bytes "9223372036854775807\r\n")).1 =
      (9223372036854775807, bytes "\r\n", Ret.nil) ∧
    (write NewParser (bytes "*\r\n")).1 = Ret.protocolError "Invalid charactor in number" ∧
    (write NewParser (bytes "*1\r\n$\r\n")).1 =
      Ret.protocolError "Invalid charactor in number" ∧
    (write NewParser (bytes "*1\r\n$-\r\n")).1 =
      Ret.protocolError "Invalid charactor in number" :=
  ⟨(C20_integer_text_checked NewParser [] (bytes "\n") (Or.inl rfl) (by decide)).2.2
      (by decide),
    (C20_integer_text_checked NewParser (bytes "-") (bytes "\n") (Or.inl rfl)
      (by decide)).2.2 (by decide),
    (C20_integer_text_checked NewParser (bytes "9223372036854775808") (bytes "\n")
      (Or.inl rfl) (by decide)).2.2 (by decide),
    (C20_integer_text_checked NewParser (bytes "9223372036854775807") (bytes "\n")
      (Or.inl rfl) (by decide)).2.1 9223372036854775807 (by decide) (by decide),
    by decide, by decide, by decide⟩

/-! ## Every `write` is a sequence of primitive updates -/

theorem Steps.refl (r : Parser) : Steps r r := Relation.ReflTransGen.refl

theorem Steps.head {r r1 r2 : Parser} (h : Step r r1) (h2 : Steps r1 r2) : Steps r r2 :=
  Relation.ReflTransGen.head h h2

theorem Steps.trans {r r1 r2 : Parser} (h : Steps r r1) (h2 : Steps r1 r2) : Steps r r2 :=
  Relation.ReflTransGen.trans h h2

theorem Steps.single {r r1 : Parser} (h : Step r r1) : Steps r r1 :=
  Relation.ReflTransGen.single h

theorem withInteger_steps (k : Int → List Nat → Parser → Ret × Parser) (r : Parser)
    (buf : List Nat) (hs : isIntegerState r.state)
    (hk : ∀ (n : Int) (newBuf : List Nat) (r1 : Parser), r1.state = r.state →
      newBuf.length ≤ buf.length → Steps r1 (k n newBuf { r1 with tmpNumber := none }).2) :
    Steps r (withInteger k r buf).2 := by
  induction buf generalizing r with
  | nil => rw [withInteger_nil]; exact Steps.refl r
  | cons b rest ih =>
    by_cases hacc : accepts r b
    · rw [withInteger_acc k r b rest hacc]
      refine Steps.head (Step.accumulate r b hs) (ih _ hs ?_)
      intro n newBuf r1 h1 h2
      exact hk n newBuf r1 h1 (by simp at h2 ⊢; omega)
    · rw [withInteger_stop k r b rest hacc]
      by_cases hb : b = 13
      · rw [if_pos hb]
        cases atoi (sliceBytes r.tmpNumber) with
        | none => exact Steps.refl r
        | some n => exact hk n (b :: rest) r rfl (le_refl _)
      · rw [if_neg hb]
        exact Steps.refl r

theorem writeCRLF_steps (w : Parser → List Nat → Ret × Parser) (r : Parser)
    (buf : List Nat) (hs : isCRLFState r.state)
    (hw : ∀ (r1 : Parser) (buf1 : List Nat), buf1.length < buf.length →
      Steps r1 (w r1 buf1).2) :
    Steps r (writeCRLF w r buf).2 := by
  induction buf generalizing r with
  | nil => exact Steps.refl r
  | cons b rest ih =>
    unfold writeCRLF
    split_ifs
    · exact Steps.single (Step.cr r hs)
    · exact Steps.head (Step.cr r hs)
        (ih _ hs (fun r1 buf1 h1 => hw r1 buf1 (by simp at h1 ⊢; omega)))
    · exact Steps.head (Step.lf r hs) (hw _ _ (by simp))
    · exact Steps.refl r

theorem writeStringSize_eq (kind : resultTypeCode) (r : Parser) (buf : List Nat) :
    writeStringSize kind r buf =
      match findCR 0 buf with
      | some i =>
        match setElem r.elements r.tmpIndex
            { kind := kind, size := ((sliceBytes r.tmpString ++ buf.take i).length : Int),
              data := sliceBytes r.tmpString ++ buf.take i } with
        | none => (Ret.panic, { r with tmpString := some (sliceBytes r.tmpString ++ buf.take i) })
        | some es =>
          (Ret.nil, { r with elements := es, tmpString := none, tmpIndex := r.tmpIndex + 1 })
      | none => (Ret.parseContinue, { r with tmpString := some (sliceBytes r.tmpString ++ buf) }) := by
  obtain ⟨c, es, st, ns, ti, tn, ts, cr⟩ := r
  cases ts with
  | none =>
    simp only [writeStringSize, if_true, appendSlice, sliceBytes, NewElement, List.nil_append]
  | some l =>
    simp only [writeStringSize, reduceCtorEq, if_false, appendSlice, sliceBytes, NewElement]

theorem writeStringSize_steps (kind : resultTypeCode) (r : Parser) (buf : List Nat)
    (hs : r.state = parseProcessingState.ELEM_INITIALIZING)
    (hk : kind ≠ resultTypeCode.BINARY_STRING) :
    Steps r (writeStringSize kind r buf).2 := by
  rw [writeStringSize_eq]
  cases findCR 0 buf with
  | none => exact Steps.single (Step.stringBuffer r _ hs)
  | some i =>
    simp only
    cases hset : setElem r.elements r.tmpIndex
        { kind := kind, size := ((sliceBytes r.tmpString ++ buf.take i).length : Int),
          data := sliceBytes r.tmpString ++ buf.take i } with
    | none => exact Steps.single (Step.stringBuffer r _ hs)
    | some es => exact Steps.single (Step.stringSealed r kind _ es hs hk hset)

theorem writeBinaryString_steps (w : Parser → List Nat → Ret × Parser) (r : Parser)
    (buf : List Nat) (hs : r.state = parseProcessingState.ELEM_STRING_INITIALIZING)
    (hw : ∀ (r1 : Parser) (buf1 : List Nat),
      r1.state = parseProcessingState.ELEM_STRING_INITIALIZED →
      buf1.length ≤ buf.length → Steps r1 (w r1 buf1).2) :
    Steps r (writeBinaryString w r buf).2 := by
  cases hg : getElem r.elements r.tmpIndex with
  | none => simp only [writeBinaryString, hg]; exact Steps.refl r
  | some oe =>
    cases oe with
    | none => simp only [writeBinaryString, hg]; exact Steps.refl r
    | some e =>
      rw [writeBinaryString_eq w r buf e hg]
      by_cases h1 : (buf.length : Int) ≥ e.size - (e.data.length : Int)
      · rw [if_pos h1]
        by_cases h2 : e.size - (e.data.length : Int) < 0
        · rw [if_pos h2]
          exact Steps.refl r
        · rw [if_neg h2]
          refine Steps.head (Step.payloadSealed r e _ hs hg ?_) (hw _ _ rfl ?_)
          · rw [List.length_take]
            omega
          · rw [List.length_drop]
            omega
      · rw [if_neg h1]
        exact Steps.single (Step.payloadGrown r e buf hs hg (by omega))

theorem write_steps_aux (n : Nat) :
    ∀ (r : Parser) (buf : List Nat), 2 * buf.length + rank r.state < n →
      Steps r (write r buf).2 := by
  induction n with
  | zero => intro r buf h; omega
  | succ n ih =>
    intro r buf h
    cases buf with
    | nil => rw [write_nil]; exact Steps.refl r
    | cons b rest =>
      have hlen : (b :: rest).length = rest.length + 1 := rfl
      have hrank : ∀ s : parseProcessingState, rank s ≤ 1 := by
        intro s; cases s <;> simp [rank]
      cases hs : r.state with
      | UNINITIALIZED =>
        rw [write_uninit_state r b rest hs]
        split_ifs
        · exact Steps.head (Step.star r hs) (ih _ _ (by
            have := hrank parseProcessingState.ELEM_COUNT_INITIALIZING
            simp only [hlen] at h ⊢; omega))
        · refine Steps.head (Step.implicitCount r hs) (ih _ _ ?_)
          rw [hs] at h
          simp only [rank] at h ⊢
          omega
      | ELEM_COUNT_INITIALIZING =>
        rw [write_count_state r b rest hs, writeElementsCount_eq]
        refine withInteger_steps _ r _ (Or.inl hs) ?_
        intro m newBuf r1 h1 h2
        rw [hs] at h1
        unfold countCont
        simp only
        cases hm : makeElements m with
        | none => exact Steps.single (Step.countPanic r1 m h1 hm)
        | some es =>
          refine Steps.head (Step.countKnown r1 m es h1 hm) (ih _ _ ?_)
          rw [hs] at h
          simp only [rank] at h ⊢
          omega
      | ELEM_COUNT_INITIALIZED =>
        rw [write_crlf_state r b rest (Or.inl hs)]
        refine writeCRLF_steps _ r _ (Or.inl hs) (fun r1 buf1 h1 => ih _ _ ?_)
        have := hrank r1.state
        omega
      | ELEM_INITIALIZING =>
        rw [write_elem_state r b rest hs]
        split_ifs with h1 h2 h3 h4
        · exact Steps.refl r
        · exact Steps.head (Step.dollar r hs (not_le.mp h1)) (ih _ _ (by
            have := hrank parseProcessingState.ELEM_STRING_SIZE_INITIALIZING
            simp only [hlen] at h ⊢; omega))
        · exact writeStringSize_steps _ r rest hs (by decide)
        · exact writeStringSize_steps _ r rest hs (by decide)
        · exact Steps.refl r
      | ELEM_STRING_SIZE_INITIALIZING =>
        rw [write_size_state r b rest hs, writeBinaryStringSize_eq]
        refine withInteger_steps _ r _ (Or.inr hs) ?_
        intro m newBuf r1 h1 h2
        rw [hs] at h1
        unfold sizeCont
        cases hset : setElem ({ r1 with tmpNumber := none } : Parser).elements
            ({ r1 with tmpNumber := none } : Parser).tmpIndex
            { kind := resultTypeCode.BINARY_STRING, size := m, data := [] } with
        | none => exact Steps.single (Step.sizePanic r1 h1)
        | some es =>
          simp only
          have hmeas : 2 * newBuf.length + 0 < n := by
            rw [hs] at h
            simp only [rank] at h
            omega
          by_cases hm : m = -1
          · have hstep := Step.sizeKnown r1 m es h1 hset
            rw [if_pos hm] at hstep ⊢
            exact Steps.head hstep (ih _ _ hmeas)
          · have hstep := Step.sizeKnown r1 m es h1 hset
            rw [if_neg hm] at hstep ⊢
            exact Steps.head hstep (ih _ _ hmeas)
      | ELEM_STRING_SIZE_INITIALIZED =>
        rw [write_crlf_state r b rest (Or.inr (Or.inl hs))]
        refine writeCRLF_steps _ r _ (Or.inr (Or.inl hs)) (fun r1 buf1 h1 => ih _ _ ?_)
        have := hrank r1.state
        omega
      | ELEM_STRING_INITIALIZING =>
        rw [write_payload_state r b rest hs]
        refine writeBinaryString_steps _ r _ hs (fun r1 buf1 h1 h2 => ih _ _ ?_)
        rw [hs] at h
        rw [h1]
        simp only [rank] at h ⊢
        omega
      | ELEM_STRING_INITIALIZED =>
        rw [write_crlf_state r b rest (Or.inr (Or.inr hs))]
        refine writeCRLF_steps _ r _ (Or.inr (Or.inr hs)) (fun r1 buf1 h1 => ih _ _ ?_)
        have := hrank r1.state
        omega
      | INITIALIZED =>
        rw [write_initialized_state r b rest hs]
        exact Steps.refl r

/-- The parser after a `write` is reached from the parser before it by a
sequence of primitive updates. -/
theorem write_steps (r : Parser) (buf : List Nat) : Steps r (write r buf).2 :=
  write_steps_aux _ r buf (Nat.lt_succ_self _)

theorem writeAll_steps (r : Parser) (cs : List (List Nat)) :
    Steps r (writeAll r cs).2 := by
  induction cs generalizing r with
  | nil => exact Steps.refl r
  | cons c cs ih => exact Steps.trans (write_steps r c) (ih _)

/-! ## The invariants are kept by every update -/

theorem setElem_some (es es1 : List (Option Element)) (i : Int) (e : Element)
    (h : setElem es i e = some es1) :
    0 ≤ i ∧ i.toNat < es.length ∧ es1 = es.set i.toNat (some e) := by
  unfold setElem at h
  by_cases hi : i < 0
  · rw [if_pos hi] at h
    exact absurd h (by simp)
  · rw [if_neg hi] at h
    by_cases hl : i.toNat < es.length
    · rw [if_pos hl] at h
      exact ⟨by omega, hl, (Option.some.inj h).symm⟩
    · rw [if_neg hl] at h
      exact absurd h (by simp)

theorem makeElements_some (n : Int) (es : List (Option Element))
    (h : makeElements n = some es) : 0 ≤ n ∧ es = List.replicate n.toNat none := by
  unfold makeElements at h
  by_cases hn : n < 0 ∨ (maxAlloc : Int) < (ptrSize : Int) * n
  · rw [if_pos hn] at h
    exact absurd h (by simp)
  · rw [if_neg hn] at h
    exact ⟨by omega, (Option.some.inj h).symm⟩

theorem makeElements_none (n : Int) (h : makeElements n = none) :
    n < 0 ∨ (maxAlloc : Int) < (ptrSize : Int) * n := by
  unfold makeElements at h
  by_contra hn
  rw [if_neg hn] at h
  exact absurd h (by simp)

theorem get_set_elem (es : List (Option Element)) (i j : Nat) (v : Option Element)
    (h : i < es.length) :
    (es.set i v).get? j = if j = i then some v else es.get? j := by
  rw [List.get?_eq_getElem?, List.get?_eq_getElem?, List.getElem?_set]
  by_cases hj : j = i
  · subst hj
    simp [h]
  · have hij : ¬ i = j := fun hc => hj hc.symm
    simp [hj, hij]

theorem payloadBound_set (es : List (Option Element)) (i : Nat) (a : Element)
    (hes : ∀ e : Element, some e ∈ es → e.kind = resultTypeCode.BINARY_STRING →
      0 ≤ e.size → (e.data.length : Int) ≤ e.size)
    (ha : a.kind = resultTypeCode.BINARY_STRING → 0 ≤ a.size →
      (a.data.length : Int) ≤ a.size) :
    ∀ e : Element, some e ∈ es.set i (some a) → e.kind = resultTypeCode.BINARY_STRING →
      0 ≤ e.size → (e.data.length : Int) ≤ e.size := by
  intro e he
  rcases List.mem_or_eq_of_mem_set he with h | h
  · exact hes e h
  · rw [Option.some.inj h]
    exact ha

theorem payloadBound_step {r r1 : Parser} (h : Step r r1) (hinv : payloadBound r) :
    payloadBound r1 := by
  cases h with
  | star => exact hinv
  | implicitCount =>
    intro e he
    simp at he
  | accumulate => exact hinv
  | countKnown n es hs hm =>
    obtain ⟨_, hes⟩ := makeElements_some n es hm
    intro e he
    simp only [hes] at he
    exact absurd (List.eq_of_mem_replicate he) (by simp)
  | countPanic => exact hinv
  | dollar => exact hinv
  | stringBuffer => exact hinv
  | stringSealed kind s es hs hk hset =>
    obtain ⟨_, _, hes⟩ := setElem_some _ _ _ _ hset
    intro e he
    simp only [hes] at he
    exact payloadBound_set _ _ _ hinv (fun hkind => absurd hkind hk) e he
  | sizePanic => exact hinv
  | sizeKnown size es hs hset =>
    obtain ⟨_, _, hes⟩ := setElem_some _ _ _ _ hset
    intro e he
    simp only [hes] at he
    exact payloadBound_set _ _ _ hinv (fun _ hsz => by simpa using hsz) e he
  | payloadSealed e bs hs hg hlen =>
    intro x hx
    simp only [sealPayload] at hx
    refine payloadBound_set _ _ _ hinv (fun _ _ => ?_) x hx
    simp only [List.length_append, Nat.cast_add]
    omega
  | payloadGrown e bs hs hg hlen =>
    intro x hx
    simp only [growPayload] at hx
    refine payloadBound_set _ _ _ hinv (fun _ _ => ?_) x hx
    simp only [List.length_append, Nat.cast_add]
    omega
  | cr => exact hinv
  | lf => exact hinv

theorem payloadBound_steps {r r1 : Parser} (h : Steps r r1) (hinv : payloadBound r) :
    payloadBound r1 := by
  induction h with
  | refl => exact hinv
  | tail _ hstep ih => exact payloadBound_step hstep ih

theorem payloadBound_new : payloadBound NewParser := by
  intro e he
  simp [NewParser] at he

theorem countKnownState_of_crlf (s : parseProcessingState) (h : isCRLFState s) :
    countKnownState s := by
  rcases h with h | h | h <;> rw [h] <;> decide

theorem not_crlf_of_resume (s : parseProcessingState)
    (h : s = parseProcessingState.ELEM_INITIALIZING ∨
      s = parseProcessingState.ELEM_STRING_INITIALIZING) :
    ¬ isCRLFState s ∧ countKnownState s ∧ s ≠ parseProcessingState.INITIALIZED := by
  rcases h with h | h <;> rw [h] <;> decide

theorem slotsFilled_set (r : Parser) (e : Element) (hf : slotsFilled r)
    (h0 : 0 ≤ r.tmpIndex) (h1 : r.tmpIndex.toNat < r.elements.length) :
    (((r.elements.set r.tmpIndex.toNat (some e)).length : Nat) : Int) = r.count ∧
    r.tmpIndex + 1 ≤ r.count ∧
    (∀ i : Nat, (i : Int) < r.tmpIndex →
      ∃ x : Element, (r.elements.set r.tmpIndex.toNat (some e)).get? i = some (some x)) ∧
    (∀ i : Nat, (i : Int) < r.tmpIndex + 1 →
      ∃ x : Element, (r.elements.set r.tmpIndex.toNat (some e)).get? i = some (some x)) := by
  obtain ⟨hlen, _, _, hfill⟩ := hf
  refine ⟨by rw [List.length_set]; exact hlen, by omega, ?_, ?_⟩
  · intro i hi
    rw [get_set_elem _ _ _ _ h1, if_neg (by omega)]
    exact hfill i hi
  · intro i hi
    rw [get_set_elem _ _ _ _ h1]
    by_cases hi2 : i = r.tmpIndex.toNat
    · rw [if_pos hi2]
      exact ⟨e, rfl⟩
    · rw [if_neg hi2]
      exact hfill i (by omega)

theorem slotInvariant_step {r r1 : Parser} (h : Step r r1) (hinv : slotInvariant r) :
    slotInvariant r1 := by
  obtain ⟨h1, h2, h3, h4⟩ := hinv
  cases h with
  | star hs =>
    refine ⟨by simp, fun hc => ?_, fun _ => h3 (by rw [hs]; decide), fun hk => ?_⟩
    · exact absurd hc (by simp [countKnownState, isCRLFState, sealPayload])
    · exact absurd hk (by simp [countKnownState, isCRLFState, sealPayload])
  | implicitCount hs =>
    have ht : r.tmpIndex = 0 := h3 (by rw [hs]; decide)
    refine ⟨by simp, fun hc => absurd hc (by simp [countKnownState, isCRLFState, sealPayload]), fun hk => absurd (by simp [countKnownState, isCRLFState, sealPayload]) hk,
      fun _ _ => ?_⟩
    refine ⟨rfl, ?_, ?_, ?_⟩
    · show 0 ≤ r.tmpIndex
      omega
    · show r.tmpIndex ≤ 1
      omega
    · intro i hi
      have : (i : Int) < r.tmpIndex := hi
      omega
  | accumulate b hs => exact ⟨h1, h2, h3, h4⟩
  | countKnown n es hs hm =>
    have ht : r.tmpIndex = 0 := h3 (by rw [hs]; decide)
    obtain ⟨hn, hes⟩ := makeElements_some n es hm
    refine ⟨by simp, fun _ => Or.inl rfl, fun hk => absurd (by simp [countKnownState, isCRLFState, sealPayload]) hk, fun _ _ => ?_⟩
    refine ⟨?_, ?_, ?_, ?_⟩
    · show ((es.length : Nat) : Int) = n
      rw [hes, List.length_replicate]
      omega
    · show 0 ≤ r.tmpIndex
      omega
    · show r.tmpIndex ≤ n
      omega
    · intro i hi
      have : (i : Int) < r.tmpIndex := hi
      omega
  | countPanic n hs hm =>
    have hn := makeElements_none n hm
    refine ⟨by simp, fun _ => Or.inl rfl, fun hk => absurd (by simp [countKnownState, isCRLFState, sealPayload]) hk, fun _ hc => ?_⟩
    have h0 : (0 : Int) ≤ n := hc.1
    have ha : (ptrSize : Int) * n ≤ (maxAlloc : Int) := hc.2
    omega
  | dollar hs hi =>
    refine ⟨by simp, fun hc => absurd hc (by simp [countKnownState, isCRLFState, sealPayload]), fun hk => absurd (by simp [countKnownState, isCRLFState, sealPayload]) hk,
      fun _ hc => h4 (by rw [hs]; decide) hc⟩
  | stringBuffer t hs => exact ⟨h1, h2, h3, h4⟩
  | stringSealed kind s es hs hk hset =>
    obtain ⟨hi0, hi1, hes⟩ := setElem_some _ _ _ _ hset
    refine ⟨h1, h2, fun hnk => absurd (by rw [hs]; decide) hnk, fun hkn hc => ?_⟩
    have hf := h4 hkn hc
    obtain ⟨a1, a2, _, a4⟩ := slotsFilled_set r _ hf hi0 hi1
    rw [← hes] at a1 a4
    exact ⟨a1, by show 0 ≤ r.tmpIndex + 1; omega, a2, a4⟩
  | sizePanic hs => exact ⟨h1, h2, h3, h4⟩
  | sizeKnown size es hs hset =>
    obtain ⟨hi0, hi1, hes⟩ := setElem_some _ _ _ _ hset
    refine ⟨by simp, fun _ => ?_, fun hk => absurd (by simp [countKnownState, isCRLFState, sealPayload]) hk, fun _ hc => ?_⟩
    · show (if size = -1 then parseProcessingState.ELEM_INITIALIZING
        else parseProcessingState.ELEM_STRING_INITIALIZING) = _ ∨ _
      split_ifs
      · exact Or.inl rfl
      · exact Or.inr rfl
    · have hf := h4 (by rw [hs]; decide) hc
      obtain ⟨a1, _, a3, _⟩ := slotsFilled_set r _ hf hi0 hi1
      rw [← hes] at a1 a3
      exact ⟨a1, hf.2.1, hf.2.2.1, a3⟩
  | payloadSealed e bs hs hg hlen =>
    obtain ⟨hi0, hi1⟩ := getElem_some _ _ _ hg
    refine ⟨by simp [sealPayload], fun _ => Or.inl rfl,
      fun hk => absurd (by simp [countKnownState, isCRLFState, sealPayload]) hk, fun _ hc => ?_⟩
    have hf := h4 (by rw [hs]; decide) hc
    obtain ⟨a1, a2, _, a4⟩ := slotsFilled_set r { e with data := e.data ++ bs } hf hi0 hi1
    exact ⟨a1, by show 0 ≤ r.tmpIndex + 1; omega, a2, a4⟩
  | payloadGrown e bs hs hg hlen =>
    obtain ⟨hi0, hi1⟩ := getElem_some _ _ _ hg
    refine ⟨h1, h2, h3, fun hkn hc => ?_⟩
    have hf := h4 hkn hc
    obtain ⟨a1, _, a3, _⟩ := slotsFilled_set r { e with data := e.data ++ bs } hf hi0 hi1
    exact ⟨a1, hf.2.1, hf.2.2.1, a3⟩
  | cr hs => exact ⟨h1, h2, h3, h4⟩
  | lf hs =>
    obtain ⟨b1, b2, b3⟩ := not_crlf_of_resume r.nextState (h2 hs)
    refine ⟨b3, fun hc => absurd hc b1, fun hk => absurd b2 hk, fun _ hc => ?_⟩
    exact h4 (countKnownState_of_crlf _ hs) hc

theorem count_kept_step {r r1 : Parser} (h : Step r r1) (hinv : slotInvariant r)
    (hk : countKnownState r.state) : r1.count = r.count ∧ countKnownState r1.state := by
  obtain ⟨h1, h2, h3, h4⟩ := hinv
  cases h with
  | star hs => exact absurd hs hk.1
  | implicitCount hs => exact absurd hs hk.1
  | accumulate b hs => exact ⟨rfl, hk⟩
  | countKnown n es hs hm => exact absurd hs hk.2
  | countPanic n hs hm => exact absurd hs hk.2
  | dollar hs hi => exact ⟨rfl, by simp [countKnownState, isCRLFState, sealPayload]⟩
  | stringBuffer t hs => exact ⟨rfl, hk⟩
  | stringSealed kind s es hs hk1 hset => exact ⟨rfl, hk⟩
  | sizePanic hs => exact ⟨rfl, hk⟩
  | sizeKnown size es hs hset => exact ⟨rfl, by simp [countKnownState, isCRLFState, sealPayload]⟩
  | payloadSealed e bs hs hg hlen => exact ⟨rfl, by simp [countKnownState, isCRLFState, sealPayload]⟩
  | payloadGrown e bs hs hg hlen => exact ⟨rfl, hk⟩
  | cr hs => exact ⟨rfl, hk⟩
  | lf hs => exact ⟨rfl, (not_crlf_of_resume r.nextState (h2 hs)).2.1⟩

theorem slotInvariant_steps {r r1 : Parser} (h : Steps r r1) (hinv : slotInvariant r) :
    slotInvariant r1 := by
  induction h with
  | refl => exact hinv
  | tail _ hstep ih => exact slotInvariant_step hstep ih

theorem count_kept_steps {r r1 : Parser} (h : Steps r r1) (hinv : slotInvariant r)
    (hk : countKnownState r.state) : r1.count = r.count ∧ countKnownState r1.state := by
  induction h with
  | refl => exact ⟨rfl, hk⟩
  | tail hsteps hstep ih =>
    obtain ⟨c1, c2⟩ := count_kept_step hstep (slotInvariant_steps hsteps hinv) ih.2
    exact ⟨c1.trans ih.1, c2⟩

theorem slotInvariant_new : slotInvariant NewParser := by
  refine ⟨by decide, fun hc => absurd hc (by decide), fun _ => rfl, fun hk => ?_⟩
  exact absurd hk (by decide)

/-! ## The payload bound and the slot invariant -/

/-- Claim C17. In every parser reached from a fresh one by a sequence of `write`
calls (whatever sizes are declared), every stored `BINARY_STRING` element with
`size >= 0` has `len(data) <= size`.  `writeBinaryString`, on an element `e`
with `remaining = size - len(data) >= 0`, appends the first
`min(len(chunk), remaining)` bytes of the chunk: when the chunk is shorter
than the remainder it appends the whole chunk, returns `nil` and leaves state,
nextState, tmpIndex and count unchanged; otherwise it appends exactly
`remaining` bytes and continues with the rest of the chunk. -/
theorem C17_bulk_payload_bound (cs : List (List Nat))
    (w : Parser → List Nat → Ret × Parser) (r : Parser) (buf : List Nat) (e : Element)
    (hg : getElem r.elements r.tmpIndex = some (some e))
    (hrem : 0 ≤ e.size - (e.data.length : Int)) :
    (∀ x : Element, some x ∈ (writeAll NewParser cs).2.elements →
      x.kind = resultTypeCode.BINARY_STRING → 0 ≤ x.size → (x.data.length : Int) ≤ x.size) ∧
    (buf.take (min buf.length (e.size - (e.data.length : Int)).toNat)).length =
      min buf.length (e.size - (e.data.length : Int)).toNat ∧
    ((buf.length : Int) < e.size - (e.data.length : Int) →
      buf.take (min buf.length (e.size - (e.data.length : Int)).toNat) = buf ∧
      (writeBinaryString w r buf).1 = Ret.nil ∧
      (writeBinaryString w r buf).2.elements =
        r.elements.set r.tmpIndex.toNat (some { e with data := e.data ++ buf }) ∧
      (writeBinaryString w r buf).2.state = r.state ∧
      (writeBinaryString w r buf).2.nextState = r.nextState ∧
      (writeBinaryString w r buf).2.tmpIndex = r.tmpIndex ∧
      (writeBinaryString w r buf).2.count = r.count) ∧
    (e.size - (e.data.length : Int) ≤ (buf.length : Int) →
      writeBinaryString w r buf =
        w (sealPayload r e (buf.take (min buf.length (e.size - (e.data.length : Int)).toNat)))
          (buf.drop (min buf.length (e.size - (e.data.length : Int)).toNat))) := by
  refine ⟨payloadBound_steps (writeAll_steps NewParser cs) payloadBound_new, ?_, ?_, ?_⟩
  · rw [List.length_take]
    omega
  · intro hlt
    rw [writeBinaryString_eq w r buf e hg, if_neg (by omega)]
    refine ⟨?_, rfl, rfl, rfl, rfl, rfl, rfl⟩
    rw [List.take_of_length_le]
    omega
  · intro hle
    rw [writeBinaryString_eq w r buf e hg, if_pos (by omega), if_neg (by omega)]
    have hmin : min buf.length (e.size - (e.data.length : Int)).toNat =
        (e.size - (e.data.length : Int)).toNat := by omega
    rw [hmin]

/-- Witness of C17: after `*1\r\n$5\r\n` the chunk `hel` is appended whole and
the state stays `ELEM_STRING_INITIALIZING`. -/
theorem C17_bulk_payload_bound_witness :
    getElem (write NewParser (bytes "*1\r\n$5\r\n")).2.elements
        (write NewParser (bytes "*1\r\n$5\r\n")).2.tmpIndex =
      some (some { kind := resultTypeCode.BINARY_STRING, size := 5, data := [] }) ∧
    (writeBinaryString write (write NewParser (bytes "*1\r\n$5\r\n")).2 (bytes "hel")).2.elements =
      [some { kind := resultTypeCode.BINARY_STRING, size := 5, data := bytes "hel" }] ∧
    (writeBinaryString write (write NewParser (bytes "*1\r\n$5\r\n")).2 (bytes "hel")).2.state =
      parseProcessingState.ELEM_STRING_INITIALIZING :=
  have h := C17_bulk_payload_bound [] write (write NewParser (bytes "*1\r\n$5\r\n")).2
    (bytes "hel") { kind := resultTypeCode.BINARY_STRING, size := 5, data := [] }
    (by decide) (by decide)
  ⟨by decide, (h.2.2.1 (by decide)).2.2.1, (h.2.2.1 (by decide)).2.2.2.1⟩

/-- In every parser reached from a fresh one by a sequence of `write` calls,
once the count is known (the state is neither `UNINITIALIZED` nor
`ELEM_COUNT_INITIALIZING`) and is one that `make` allocates:
`len(elements) == count`, `0 <= tmpIndex <= count`, every slot below `tmpIndex`
holds an element, and no later `write` or sequence of `write` calls changes
`count` or brings the state back to one where the count is not known. -/
theorem slots_of_allocatable_count (cs : List (List Nat))
    (hk : countKnownState (writeAll NewParser cs).2.state)
    (hc : allocatable (writeAll NewParser cs).2.count) :
    ((writeAll NewParser cs).2.elements.length : Int) = (writeAll NewParser cs).2.count ∧
    0 ≤ (writeAll NewParser cs).2.tmpIndex ∧
    (writeAll NewParser cs).2.tmpIndex ≤ (writeAll NewParser cs).2.count ∧
    (∀ i : Nat, (i : Int) < (writeAll NewParser cs).2.tmpIndex →
      ∃ e : Element, (writeAll NewParser cs).2.elements.get? i = some (some e)) ∧
    (∀ buf : List Nat,
      (write (writeAll NewParser cs).2 buf).2.count = (writeAll NewParser cs).2.count ∧
      countKnownState (write (writeAll NewParser cs).2 buf).2.state) ∧
    (∀ cs2 : List (List Nat),
      (writeAll (writeAll NewParser cs).2 cs2).2.count = (writeAll NewParser cs).2.count ∧
      countKnownState (writeAll (writeAll NewParser cs).2 cs2).2.state) := by
  have hinv := slotInvariant_steps (writeAll_steps NewParser cs) slotInvariant_new
  obtain ⟨a1, a2, a3, a4⟩ := hinv.2.2.2 hk hc
  exact ⟨a1, a2, a3, a4, fun buf => count_kept_steps (write_steps _ buf) hinv hk,
    fun cs2 => count_kept_steps (writeAll_steps _ cs2) hinv hk⟩

/-- Claim C18 at the failing input: the declared count `4611686018427387904`
(`2^62`) is non-negative, but `write(*4611686018427387904\r\n)` on a fresh
parser panics in `make` (`len out of range`) after `count` and `state` have
been assigned.  The parser is left with the count known and non-negative and
with `elements` still the nil slice, so `len(elements) = 0 != count`; `Parse`
meets the panic on the same bytes.  With the count `2` the same header leaves
`len(elements) = count`. -/
theorem C18_unallocatable_count_breaks_slots :
    (write NewParser (bytes "*4611686018427387904\r\n")).1 = Ret.panic ∧
    (write NewParser (bytes "*4611686018427387904\r\n")).2.count = 4611686018427387904 ∧
    0 ≤ (write NewParser (bytes "*4611686018427387904\r\n")).2.count ∧
    (write NewParser (bytes "*4611686018427387904\r\n")).2.state =
      parseProcessingState.ELEM_COUNT_INITIALIZED ∧
    countKnownState (write NewParser (bytes "*4611686018427387904\r\n")).2.state ∧
    (write NewParser (bytes "*4611686018427387904\r\n")).2.elements = [] ∧
    ((write NewParser (bytes "*4611686018427387904\r\n")).2.elements.length : Int) ≠
      (write NewParser (bytes "*4611686018427387904\r\n")).2.count ∧
    (Parse NewParser [bytes "*4611686018427387904\r\n"]).1 = Ret.panic ∧
    (write NewParser (bytes "*2\r\n")).1 = Ret.nil ∧
    ((write NewParser (bytes "*2\r\n")).2.elements.length : Int) =
      (write NewParser (bytes "*2\r\n")).2.count := by
  decide

/-! ## A rejected `write` leaves the parser where the offending byte was met -/

theorem stoppedAt_of_not_error (x : Ret × Parser)
    (h : ∀ msg : String, x.1 ≠ Ret.protocolError msg) : stoppedAt x :=
  fun msg hm => absurd hm (h msg)

theorem withInteger_stoppedAt (k : Int → List Nat → Parser → Ret × Parser) (r : Parser)
    (buf : List Nat) (hs : isIntegerState r.state)
    (hk : ∀ (n : Int) (newBuf : List Nat) (r1 : Parser), r1.state = r.state →
      newBuf.length ≤ buf.length → stoppedAt (k n newBuf { r1 with tmpNumber := none })) :
    stoppedAt (withInteger k r buf) := by
  induction buf generalizing r with
  | nil =>
    rw [withInteger_nil]
    exact stoppedAt_of_not_error _ (by simp)
  | cons b rest ih =>
    have herr : stoppedAt (protocolError "Invalid charactor in number", r) := by
      intro msg hm
      refine Or.inr (Or.inl ⟨?_, hs⟩)
      simp only [protocolError, Ret.protocolError.injEq] at hm
      exact hm.symm
    by_cases hacc : accepts r b
    · rw [withInteger_acc k r b rest hacc]
      refine ih _ hs ?_
      intro n newBuf r1 h1 h2
      exact hk n newBuf r1 h1 (by simp at h2 ⊢; omega)
    · rw [withInteger_stop k r b rest hacc]
      by_cases hb : b = 13
      · rw [if_pos hb]
        cases atoi (sliceBytes r.tmpNumber) with
        | none => exact herr
        | some n => exact hk n (b :: rest) r rfl (le_refl _)
      · rw [if_neg hb]
        exact herr

theorem writeCRLF_stoppedAt (w : Parser → List Nat → Ret × Parser) (r : Parser)
    (buf : List Nat) (hs : isCRLFState r.state)
    (hw : ∀ (r1 : Parser) (buf1 : List Nat), buf1.length < buf.length →
      stoppedAt (w r1 buf1)) :
    stoppedAt (writeCRLF w r buf) := by
  have herr : ∀ r1 : Parser, isCRLFState r1.state →
      stoppedAt (protocolError "Invalid charactor for new line", r1) := by
    intro r1 h1 msg hm
    refine Or.inr (Or.inr ⟨?_, h1⟩)
    simp only [protocolError, Ret.protocolError.injEq] at hm
    exact hm.symm
  induction buf generalizing r with
  | nil => exact herr r hs
  | cons b rest ih =>
    unfold writeCRLF
    split_ifs
    · exact stoppedAt_of_not_error _ (by simp)
    · exact ih _ hs (fun r1 buf1 h1 => hw r1 buf1 (by simp at h1 ⊢; omega))
    · exact hw _ _ (by simp)
    · exact herr r hs

theorem writeStringSize_stoppedAt (kind : resultTypeCode) (r : Parser) (buf : List Nat) :
    stoppedAt (writeStringSize kind r buf) := by
  rw [writeStringSize_eq]
  cases findCR 0 buf with
  | none => exact stoppedAt_of_not_error _ (by simp)
  | some i =>
    simp only
    cases setElem r.elements r.tmpIndex
        { kind := kind, size := ((sliceBytes r.tmpString ++ buf.take i).length : Int),
          data := sliceBytes r.tmpString ++ buf.take i } with
    | none => exact stoppedAt_of_not_error _ (by simp)
    | some es => exact stoppedAt_of_not_error _ (by simp)

theorem writeBinaryString_stoppedAt (w : Parser → List Nat → Ret × Parser) (r : Parser)
    (buf : List Nat)
    (hw : ∀ (r1 : Parser) (buf1 : List Nat),
      r1.state = parseProcessingState.ELEM_STRING_INITIALIZED →
      buf1.length ≤ buf.length → stoppedAt (w r1 buf1)) :
    stoppedAt (writeBinaryString w r buf) := by
  cases hg : getElem r.elements r.tmpIndex with
  | none =>
    simp only [writeBinaryString, hg]
    exact stoppedAt_of_not_error _ (by simp)
  | some oe =>
    cases oe with
    | none =>
      simp only [writeBinaryString, hg]
      exact stoppedAt_of_not_error _ (by simp)
    | some e =>
      rw [writeBinaryString_eq w r buf e hg]
      by_cases h1 : (buf.length : Int) ≥ e.size - (e.data.length : Int)
      · rw [if_pos h1]
        by_cases h2 : e.size - (e.data.length : Int) < 0
        · rw [if_pos h2]
          exact stoppedAt_of_not_error _ (by simp)
        · rw [if_neg h2]
          refine hw _ _ rfl ?_
          rw [List.length_drop]
          omega
      · rw [if_neg h1]
        exact stoppedAt_of_not_error _ (by simp)

theorem write_stoppedAt_aux (n : Nat) :
    ∀ (r : Parser) (buf : List Nat), 2 * buf.length + rank r.state < n →
      stoppedAt (write r buf) := by
  induction n with
  | zero => intro r buf h; omega
  | succ n ih =>
    intro r buf h
    cases buf with
    | nil =>
      rw [write_nil]
      exact stoppedAt_of_not_error _ (by simp)
    | cons b rest =>
      have hlen : (b :: rest).length = rest.length + 1 := rfl
      have hrank : ∀ s : parseProcessingState, rank s ≤ 1 := by
        intro s; cases s <;> simp [rank]
      have hunknown : ∀ r1 : Parser,
          (r1.state = parseProcessingState.ELEM_INITIALIZING ∨
            r1.state = parseProcessingState.INITIALIZED) →
          stoppedAt (protocolError "Unknown write error", r1) := by
        intro r1 h1 msg hm
        refine Or.inl ⟨?_, h1⟩
        simp only [protocolError, Ret.protocolError.injEq] at hm
        exact hm.symm
      cases hs : r.state with
      | UNINITIALIZED =>
        rw [write_uninit_state r b rest hs]
        split_ifs
        · exact ih _ _ (by
            have := hrank parseProcessingState.ELEM_COUNT_INITIALIZING
            simp only [hlen] at h ⊢; omega)
        · refine ih _ _ ?_
          rw [hs] at h
          simp only [rank] at h ⊢
          omega
      | ELEM_COUNT_INITIALIZING =>
        rw [write_count_state r b rest hs, writeElementsCount_eq]
        refine withInteger_stoppedAt _ r _ (Or.inl hs) ?_
        intro m newBuf r1 h1 h2
        unfold countCont
        simp only
        cases makeElements m with
        | none => exact stoppedAt_of_not_error _ (by simp)
        | some es =>
          refine ih _ _ ?_
          rw [hs] at h
          simp only [rank] at h ⊢
          omega
      | ELEM_COUNT_INITIALIZED =>
        rw [write_crlf_state r b rest (Or.inl hs)]
        refine writeCRLF_stoppedAt _ r _ (Or.inl hs) (fun r1 buf1 h1 => ih _ _ ?_)
        have := hrank r1.state
        omega
      | ELEM_INITIALIZING =>
        rw [write_elem_state r b rest hs]
        split_ifs with h1 h2 h3 h4
        · exact hunknown r (Or.inl hs)
        · exact ih _ _ (by
            have := hrank parseProcessingState.ELEM_STRING_SIZE_INITIALIZING
            simp only [hlen] at h ⊢; omega)
        · exact writeStringSize_stoppedAt _ r rest
        · exact writeStringSize_stoppedAt _ r rest
        · exact hunknown r (Or.inl hs)
      | ELEM_STRING_SIZE_INITIALIZING =>
        rw [write_size_state r b rest hs, writeBinaryStringSize_eq]
        refine withInteger_stoppedAt _ r _ (Or.inr hs) ?_
        intro m newBuf r1 h1 h2
        unfold sizeCont
        cases setElem ({ r1 with tmpNumber := none } : Parser).elements
            ({ r1 with tmpNumber := none } : Parser).tmpIndex
            { kind := resultTypeCode.BINARY_STRING, size := m, data := [] } with
        | none => exact stoppedAt_of_not_error _ (by simp)
        | some es =>
          simp only
          have hmeas : 2 * newBuf.length + 0 < n := by
            rw [hs] at h
            simp only [rank] at h
            omega
          by_cases hm : m = -1
          · rw [if_pos hm]
            exact ih _ _ hmeas
          · rw [if_neg hm]
            exact ih _ _ hmeas
      | ELEM_STRING_SIZE_INITIALIZED =>
        rw [write_crlf_state r b rest (Or.inr (Or.inl hs))]
        refine writeCRLF_stoppedAt _ r _ (Or.inr (Or.inl hs)) (fun r1 buf1 h1 => ih _ _ ?_)
        have := hrank r1.state
        omega
      | ELEM_STRING_INITIALIZING =>
        rw [write_payload_state r b rest hs]
        refine writeBinaryString_stoppedAt _ r _ (fun r1 buf1 h1 h2 => ih _ _ ?_)
        rw [hs] at h
        rw [h1]
        simp only [rank] at h ⊢
        omega
      | ELEM_STRING_INITIALIZED =>
        rw [write_crlf_state r b rest (Or.inr (Or.inr hs))]
        refine writeCRLF_stoppedAt _ r _ (Or.inr (Or.inr hs)) (fun r1 buf1 h1 => ih _ _ ?_)
        have := hrank r1.state
        omega
      | INITIALIZED =>
        rw [write_initialized_state r b rest hs]
        exact hunknown r (Or.inr hs)

/-- A protocol error returned by `write` names the state the parser is left
in. -/
theorem write_stoppedAt (r : Parser) (buf : List Nat) : stoppedAt (write r buf) :=
  write_stoppedAt_aux _ r buf (Nat.lt_succ_self _)

theorem crlfBit_step {r r1 : Parser} (h : Step r r1) (hinv : crlfBit r) : crlfBit r1 := by
  cases h with
  | cr hs => exact Or.inr rfl
  | lf hs => exact Or.inl rfl
  | _ => exact hinv

theorem crlfBit_steps {r r1 : Parser} (h : Steps r r1) (hinv : crlfBit r) : crlfBit r1 := by
  induction h with
  | refl => exact hinv
  | tail _ hstep ih => exact crlfBit_step hstep ih

/-- Claim C8 as amended.  No call records a failure in the parser: an error is
only the value returned.  Let a `write`, made after any sequence of `write`
calls on a fresh parser, return a protocol error and leave the parser `r1`.
The error is one of three, and each names the state in which the offending
byte was met and in which `r1` is left, where decoding resumes:
`Unknown write error` leaves `ELEM_INITIALIZING`, and `eof` then returns `nil`
and sets `INITIALIZED`; a later `write` of a non-empty chunk returns the same
error and changes nothing when no element is missing (`count <= tmpIndex`),
and otherwise the `write` of `$` returns `nil`.  `Invalid charactor in number`
leaves one of the two states that scan an integer, where `eof` returns an
error and the `write` of a digit returns `nil`.
`Invalid charactor for new line` leaves a terminator state, where `eof` returns
an error and the `write` of the awaited byte (CR when `tmpCrlfState = 0`, LF
when it is 1) returns `nil`.  For every parser, an `eof` that does not return
`nil` returns the protocol error `EOF Error` and leaves every field as it was,
so that `eof` called again returns the same error. -/
theorem C8_no_failed_condition (cs : List (List Nat)) (buf : List Nat) (msg : String)
    (r1 : Parser)
    (h : write (writeAll NewParser cs).2 buf = (Ret.protocolError msg, r1)) :
    (msg = "Unknown write error" ∨ msg = "Invalid charactor in number" ∨
      msg = "Invalid charactor for new line") ∧
    (msg = "Unknown write error" →
      r1.state = parseProcessingState.ELEM_INITIALIZING ∧
      eof r1 = (Ret.nil, { r1 with state := parseProcessingState.INITIALIZED }) ∧
      (r1.count ≤ r1.tmpIndex → ∀ buf2 : List Nat, buf2 ≠ [] →
        write r1 buf2 = (Ret.protocolError "Unknown write error", r1)) ∧
      (r1.tmpIndex < r1.count → (write r1 [36]).1 = Ret.nil)) ∧
    (msg = "Invalid charactor in number" →
      isIntegerState r1.state ∧ (eof r1).1 = Ret.protocolError "EOF Error" ∧
      (write r1 [48]).1 = Ret.nil) ∧
    (msg = "Invalid charactor for new line" →
      isCRLFState r1.state ∧ (eof r1).1 = Ret.protocolError "EOF Error" ∧
      ((r1.tmpCrlfState = 0 ∧ (write r1 [13]).1 = Ret.nil) ∨
        (r1.tmpCrlfState = 1 ∧ (write r1 [10]).1 = Ret.nil))) ∧
    (∀ r : Parser, (eof r).1 ≠ Ret.nil →
      eof r = (Ret.protocolError "EOF Error", r) ∧ eof (eof r).2 = eof r) := by
  have hsteps : Steps NewParser r1 := by
    have h1 := Steps.trans (writeAll_steps NewParser cs)
      (write_steps (writeAll NewParser cs).2 buf)
    rw [h] at h1
    exact h1
  have hinv := slotInvariant_steps hsteps slotInvariant_new
  have hbit := crlfBit_steps hsteps (Or.inl rfl)
  have hstop := write_stoppedAt (writeAll NewParser cs).2 buf
  rw [h] at hstop
  have hcls := hstop msg rfl
  have heofI : ∀ r : Parser, isIntegerState r.state →
      (eof r).1 = Ret.protocolError "EOF Error" := by
    intro r hr
    unfold eof
    rcases hr with hr | hr <;> simp [hr, protocolError]
  have heofC : ∀ r : Parser, isCRLFState r.state →
      (eof r).1 = Ret.protocolError "EOF Error" := by
    intro r hr
    unfold eof
    rcases hr with hr | hr | hr <;> simp [hr, protocolError]
  refine ⟨?_, ?_, ?_, ?_, ?_⟩
  · rcases hcls with hc | hc | hc
    · exact Or.inl hc.1
    · exact Or.inr (Or.inl hc.1)
    · exact Or.inr (Or.inr hc.1)
  · intro hm
    have hs : r1.state = parseProcessingState.ELEM_INITIALIZING := by
      rcases hcls with hc | hc | hc
      · rcases hc.2 with h2 | h2
        · exact h2
        · exact absurd h2 hinv.1
      · rw [hm] at hc
        exact absurd hc.1 (by decide)
      · rw [hm] at hc
        exact absurd hc.1 (by decide)
    refine ⟨hs, ?_, ?_, ?_⟩
    · unfold eof
      simp [hs]
    · intro hi buf2 hne
      cases buf2 with
      | nil => exact absurd rfl hne
      | cons b rest =>
        rw [write_elem_state r1 b rest hs, if_pos hi]
        rfl
    · intro hi
      rw [write_dollar r1 hs hi]
  · intro hm
    have hs : isIntegerState r1.state := by
      rcases hcls with hc | hc | hc
      · rw [hm] at hc
        exact absurd hc.1 (by decide)
      · exact hc.2
      · rw [hm] at hc
        exact absurd hc.1 (by decide)
    refine ⟨hs, heofI r1 hs, ?_⟩
    rw [write_accepted r1 48 hs (Or.inr ⟨by decide, by decide⟩)]
  · intro hm
    have hs : isCRLFState r1.state := by
      rcases hcls with hc | hc | hc
      · rw [hm] at hc
        exact absurd hc.1 (by decide)
      · rw [hm] at hc
        exact absurd hc.1 (by decide)
      · exact hc.2
    refine ⟨hs, heofC r1 hs, ?_⟩
    rcases hbit with hb | hb
    · exact Or.inl ⟨hb, by rw [write_cr r1 hs hb]⟩
    · exact Or.inr ⟨hb, by rw [write_lf r1 hs hb]⟩
  · intro r hr
    unfold eof at hr ⊢
    by_cases hs : r.state ≠ parseProcessingState.ELEM_INITIALIZING
    · simp [hs, protocolError]
    · simp [hs] at hr

/-- Witness of the amended C8.  After `*2\r\n$3\r\nfoo\r\n` the chunk `x` is
rejected with `Unknown write error` and the parser, which holds `foo`, is
unchanged: `eof` then returns `nil` and the `write` of `$` returns `nil`.  After
`*1\r\n` the chunk `$1x` is rejected with `Invalid charactor in number`, and the
`write` of the digit `0` then returns `nil`.  After `*1` the chunk `\rx` is
rejected with `Invalid charactor for new line` with `tmpCrlfState = 1`, and the
`write` of LF then returns `nil`.  In the middle of a payload (`*1\r\n$5\r\nhel`)
`eof` returns `EOF Error` and leaves the parser, payload included, as it
was. -/
theorem C8_no_failed_condition_witness :
    write (writeAll NewParser [bytes "*2\r\n$3\r\nfoo\r\n"]).2 (bytes "x") =
      (Ret.protocolError "Unknown write error",
        (writeAll NewParser [bytes "*2\r\n$3\r\nfoo\r\n"]).2) ∧
    eof (writeAll NewParser [bytes "*2\r\n$3\r\nfoo\r\n"]).2 =
      (Ret.nil, { (writeAll NewParser [bytes "*2\r\n$3\r\nfoo\r\n"]).2 with
                  state := parseProcessingState.INITIALIZED }) ∧
    (write (writeAll NewParser [bytes "*2\r\n$3\r\nfoo\r\n"]).2 [36]).1 = Ret.nil ∧
    (write (writeAll NewParser [bytes "*1\r\n"]).2 (bytes "$1x")).1 =
      Ret.protocolError "Invalid charactor in number" ∧
    (write (write (writeAll NewParser [bytes "*1\r\n"]).2 (bytes "$1x")).2 [48]).1 = Ret.nil ∧
    (write (writeAll NewParser [bytes "*1"]).2 (bytes "\rx")).1 =
      Ret.protocolError "Invalid charactor for new line" ∧
    (write (writeAll NewParser [bytes "*1"]).2 (bytes "\rx")).2.tmpCrlfState = 1 ∧
    (write (write (writeAll NewParser [bytes "*1"]).2 (bytes "\rx")).2 [10]).1 = Ret.nil ∧
    (write NewParser (bytes "*1\r\n$5\r\nhel")).2.elements =
      [some { kind := resultTypeCode.BINARY_STRING, size := 5, data := bytes "hel" }] ∧
    eof (write NewParser (bytes "*1\r\n$5\r\nhel")).2 =
      (Ret.protocolError "EOF Error", (write NewParser (bytes "*1\r\n$5\r\nhel")).2) :=
  have a := C8_no_failed_condition [bytes "*2\r\n$3\r\nfoo\r\n"] (bytes "x")
    "Unknown write error" (writeAll NewParser [bytes "*2\r\n$3\r\nfoo\r\n"]).2 (by decide)
  have b := C8_no_failed_condition [bytes "*1\r\n"] (bytes "$1x")
    "Invalid charactor in number"
    (write (writeAll NewParser [bytes "*1\r\n"]).2 (bytes "$1x")).2 (by decide)
  have c := C8_no_failed_condition [bytes "*1"] (bytes "\rx")
    "Invalid charactor for new line"
    (write (writeAll NewParser [bytes "*1"]).2 (bytes "\rx")).2 (by decide)
  ⟨by decide, (a.2.1 rfl).2.1, (a.2.1 rfl).2.2.2 (by decide),
    by decide, (b.2.2.1 rfl).2.2,
    by decide, by decide,
    ((c.2.2.2.1 rfl).2.2.elim (fun x => absurd x.1 (by decide)) (fun x => x.2)),
    by decide, (a.2.2.2.2 _ (by decide)).1⟩

end GitEncryptAgent
